import Mathlib

/-!
Verification development for the AgentCoordinator repository.

The repository ships only a test script (`scripts/test_multi_interface.py`)
and a client example (`examples/mcp_client_example.py`); the coordination
engine itself is described by the design specification and exercised by
those scripts.  The engine is therefore modelled here from the spec
(each such definition carries a doc comment starting `Modelled from the
spec:`), while the client-side argument construction is embedded directly
from `examples/mcp_client_example.py`.
-/

deriving instance DecidableEq for Except

namespace AgentCoordinator

/-- Modelled from the spec: the missing server's `priority` ordered enum
{low, normal, high, urgent} of a Task. -/
inductive Priority where
  | low
  | normal
  | high
  | urgent
deriving DecidableEq

/-- Modelled from the spec: the numeric rank of a priority tier, used to
realise the ordering urgent > high > normal > low. -/
def Priority.rank : Priority → Nat
  | .low => 0
  | .normal => 1
  | .high => 2
  | .urgent => 3

/-- Modelled from the spec: the missing server's Task lifecycle state,
one of {Pending, Assigned, Completed, Failed}. -/
inductive TaskState where
  | Pending
  | Assigned
  | Completed
  | Failed
deriving DecidableEq

/-- Modelled from the spec: the missing server's Agent status, one of
{Idle, Busy, Offline}. -/
inductive AgentStatus where
  | Idle
  | Busy
  | Offline
deriving DecidableEq

/-- Modelled from the spec: the missing server's Task record.  Capability
sets are represented as lists of string tags; task ids are generated
sequentially at creation, so the id order is the creation (FIFO) order. -/
structure Task where
  task_id : Nat
  title : String
  description : String
  priority : Priority
  required_capabilities : List String
  state : TaskState
  assigned_agent : Option Nat
  result : Option String
  created_at : Nat
  assigned_at : Option Nat
  completed_at : Option Nat
deriving DecidableEq

/-- Modelled from the spec: the missing server's Agent record. -/
structure Agent where
  agent_id : Nat
  name : String
  capabilities : List String
  status : AgentStatus
  current_task : Option Nat
  last_heartbeat : Nat
  completed_count : Nat
deriving DecidableEq

/-- Modelled from the spec: the missing server's coordinator state: the
agent registry, the task board and the priority-ordered pending queue
(a list of task ids), plus the fresh-id counters. -/
structure CoordState where
  agents : List Agent
  tasks : List Task
  pendingQueue : List Nat
  nextAgentId : Nat
  nextTaskId : Nat
deriving DecidableEq

/-- Modelled from the spec: the error taxonomy of the missing server:
NotFound, NoActiveTask, InvalidTransition, Forbidden. -/
inductive CoordError where
  | NotFound
  | NoActiveTask
  | InvalidTransition
  | Forbidden
deriving DecidableEq

/-- Modelled from the spec: the missing Capability Matcher.
`Eligible requiredCaps agentCaps` is true iff every required capability
tag appears among the agent's capabilities. -/
def Eligible (requiredCaps agentCaps : List String) : Bool :=
  requiredCaps.all (fun c => agentCaps.contains c)

/-- Look up a task by id on the task board. -/
def findTask (tasks : List Task) (tid : Nat) : Option Task :=
  tasks.find? (fun t => t.task_id == tid)

/-- Look up an agent by id in the registry. -/
def findAgent (agents : List Agent) (aid : Nat) : Option Agent :=
  agents.find? (fun a => a.agent_id == aid)

/-- Apply `f` to the task with id `tid`, leaving all other tasks alone. -/
def updateTask (tid : Nat) (f : Task → Task) (tasks : List Task) : List Task :=
  tasks.map (fun t => if t.task_id = tid then f t else t)

/-- Apply `f` to the agent with id `aid`, leaving all other agents alone. -/
def updateAgent (aid : Nat) (f : Agent → Agent) (agents : List Agent) : List Agent :=
  agents.map (fun a => if a.agent_id = aid then f a else a)

/-- Modelled from the spec: the queue ordering key comparison of the
missing pending queue: a task comes strictly before another iff it has a
strictly higher priority rank, or equal rank and an earlier creation
(smaller sequentially generated task id — FIFO within a tier). -/
def keyLt (ta tb : Task) : Bool :=
  decide (tb.priority.rank < ta.priority.rank) ||
    (ta.priority.rank == tb.priority.rank && decide (ta.task_id < tb.task_id))

/-- Whether queue entry `a` must sit strictly before entry `b`, looking
both tasks up on the board. -/
def queueBefore (tasks : List Task) (a b : Nat) : Bool :=
  match findTask tasks a, findTask tasks b with
  | some ta, some tb => keyLt ta tb
  | _, _ => false

/-- Ordered insertion of an element into a list with respect to a boolean
relation `r`: the element is placed before the first entry it must
precede. -/
def insertOrd (r : Nat → Nat → Bool) (tid : Nat) : List Nat → List Nat
  | [] => [tid]
  | x :: xs => if r tid x then tid :: x :: xs else x :: insertOrd r tid xs

/-- Modelled from the spec: insertion into the priority-ordered pending
queue, with FIFO (creation-order) tie-break within a priority tier. -/
def insertQueue (tasks : List Task) (tid : Nat) (q : List Nat) : List Nat :=
  insertOrd (queueBefore tasks) tid q

/-- Modelled from the spec: the missing `Register(name, capabilities)`
operation: creates a new Agent with status Idle and a fresh heartbeat;
always succeeds.  `now` is the wall-clock instant of the call. -/
def Register (name : String) (capabilities : List String) (now : Nat)
    (s : CoordState) : Nat × CoordState :=
  (s.nextAgentId,
   { s with
     agents := s.agents ++
       [{ agent_id := s.nextAgentId, name := name, capabilities := capabilities,
          status := .Idle, current_task := none, last_heartbeat := now,
          completed_count := 0 }],
     nextAgentId := s.nextAgentId + 1 })

/-- Modelled from the spec: the missing `CreateTask` operation: creates a
Task in Pending state and inserts it into the priority-ordered pending
queue (FIFO tie-break within a tier); always succeeds. -/
def CreateTask (title description : String) (priority : Priority)
    (required_capabilities : List String) (now : Nat)
    (s : CoordState) : Nat × CoordState :=
  let t : Task :=
    { task_id := s.nextTaskId, title := title, description := description,
      priority := priority, required_capabilities := required_capabilities,
      state := .Pending, assigned_agent := none, result := none,
      created_at := now, assigned_at := none, completed_at := none }
  (s.nextTaskId,
   { s with
     tasks := s.tasks ++ [t],
     pendingQueue := insertQueue (s.tasks ++ [t]) s.nextTaskId s.pendingQueue,
     nextTaskId := s.nextTaskId + 1 })

/-- Modelled from the spec: the task-record mutation performed when a task
is assigned: state Assigned, `assigned_agent` and `assigned_at` set. -/
def assignTask (aid now : Nat) (t : Task) : Task :=
  { t with state := .Assigned, assigned_agent := some aid, assigned_at := some now }

/-- Modelled from the spec: the agent-record mutation performed when a task
is assigned: status Busy, `current_task` set. -/
def busyAgent (tid : Nat) (b : Agent) : Agent :=
  { b with status := .Busy, current_task := some tid }

/-- Modelled from the spec: the task-record mutation performed on
completion or failure: terminal state, `result` and `completed_at`
recorded, the assignment link cleared. -/
def finishTask (endState : TaskState) (res : String) (now : Nat) (t : Task) : Task :=
  { t with state := endState, assigned_agent := none, result := some res,
           completed_at := some now }

/-- Modelled from the spec: the agent-record mutation performed on
completion or failure: back to Idle, `current_task` cleared, completed
counter incremented, heartbeat refreshed. -/
def idleAgent (now : Nat) (b : Agent) : Agent :=
  { b with status := .Idle, current_task := none,
           completed_count := b.completed_count + 1, last_heartbeat := now }

/-- Modelled from the spec: the agent-record mutation performed by a
heartbeat: only `last_heartbeat` is updated. -/
def touchAgent (now : Nat) (b : Agent) : Agent :=
  { b with last_heartbeat := now }

/-- Modelled from the spec: the agent-record mutation performed by the
liveness sweep on a stale agent holding no task. -/
def offlineAgent (b : Agent) : Agent :=
  { b with status := .Offline }

/-- Modelled from the spec: the agent-record mutation performed by the
liveness sweep on a stale agent holding a task: Offline and the
`current_task` link cleared. -/
def offlineClearAgent (b : Agent) : Agent :=
  { b with status := .Offline, current_task := none }

/-- Modelled from the spec: the task-record mutation performed by the
liveness requeue: back to Pending with the assignment fields cleared. -/
def requeueTask (t : Task) : Task :=
  { t with state := .Pending, assigned_agent := none, assigned_at := none }

/-- First task id in the queue whose task is eligible for the given
capability set, scanning in queue order. -/
def firstEligible (tasks : List Task) (caps : List String) : List Nat → Option Nat
  | [] => none
  | tid :: rest =>
    match findTask tasks tid with
    | some t =>
      if Eligible t.required_capabilities caps then some tid
      else firstEligible tasks caps rest
    | none => firstEligible tasks caps rest

/-- Modelled from the spec: the missing `GetNextTask(agent_id)` operation.
Looks up the requesting agent; if not found or not Idle, returns none with
the state untouched.  Otherwise scans the pending queue in priority order
and takes the first eligible task: the task becomes Assigned with
`assigned_agent`/`assigned_at` set, the agent becomes Busy with
`current_task` set, and the task leaves the pending queue.  If no eligible
task exists, returns none and leaves all state unchanged. -/
def GetNextTask (aid now : Nat) (s : CoordState) : Option Nat × CoordState :=
  match findAgent s.agents aid with
  | none => (none, s)
  | some a =>
    if a.status = .Idle then
      match firstEligible s.tasks a.capabilities s.pendingQueue with
      | none => (none, s)
      | some tid =>
        (some tid,
         { s with
           tasks := updateTask tid (assignTask aid now) s.tasks,
           agents := updateAgent aid (busyAgent tid) s.agents,
           pendingQueue := s.pendingQueue.filter (fun x => x ≠ tid) })
    else (none, s)

/-- Modelled from the spec: the missing `CompleteTask(agent_id, result)`
operation: requires the agent to hold a task; transitions that task to
Completed recording `result` and `completed_at`, clears the agent's
`current_task`, sets the agent Idle, increments its completed counter and
refreshes its heartbeat.  Fails with NoActiveTask when the agent holds no
task, NotFound when the agent (or its task record) is unknown, and
InvalidTransition when the held task is not in the Assigned state. -/
def CompleteTask (aid : Nat) (result : String) (now : Nat)
    (s : CoordState) : Except CoordError Nat × CoordState :=
  match findAgent s.agents aid with
  | none => (.error .NotFound, s)
  | some a =>
    match a.current_task with
    | none => (.error .NoActiveTask, s)
    | some tid =>
      match findTask s.tasks tid with
      | none => (.error .NotFound, s)
      | some t =>
        if t.state = .Assigned then
          (.ok tid,
           { s with
             tasks := updateTask tid (finishTask .Completed result now) s.tasks,
             agents := updateAgent aid (idleAgent now) s.agents })
        else (.error .InvalidTransition, s)

/-- Modelled from the spec: the missing `FailTask(agent_id, reason)`
operation: symmetric to completion but the task transitions to Failed and
does not re-enter the pending queue (terminal). -/
def FailTask (aid : Nat) (reason : String) (now : Nat)
    (s : CoordState) : Except CoordError Nat × CoordState :=
  match findAgent s.agents aid with
  | none => (.error .NotFound, s)
  | some a =>
    match a.current_task with
    | none => (.error .NoActiveTask, s)
    | some tid =>
      match findTask s.tasks tid with
      | none => (.error .NotFound, s)
      | some t =>
        if t.state = .Assigned then
          (.ok tid,
           { s with
             tasks := updateTask tid (finishTask .Failed reason now) s.tasks,
             agents := updateAgent aid (idleAgent now) s.agents })
        else (.error .InvalidTransition, s)

/-- Modelled from the spec: the missing `Heartbeat(agent_id)` operation:
updates `last_heartbeat` only; does not change `status`; NotFound for an
unknown agent, with no state change. -/
def Heartbeat (aid now : Nat) (s : CoordState) : Except CoordError Unit × CoordState :=
  match findAgent s.agents aid with
  | none => (.error .NotFound, s)
  | some _ =>
    (.ok (), { s with agents := updateAgent aid (touchAgent now) s.agents })

/-- Modelled from the spec: the missing lazy liveness evaluation for one
agent: when the agent's heartbeat age exceeds the staleness threshold it
is marked Offline and, if it holds an Assigned task, that task goes back
to Pending, re-enters the priority queue at its original priority with its
original creation order for tie-break, and the agent's `current_task` is
cleared. -/
def SweepAgent (aid now threshold : Nat) (s : CoordState) : CoordState :=
  match findAgent s.agents aid with
  | none => s
  | some a =>
    if threshold < now - a.last_heartbeat then
      match a.current_task with
      | none =>
        { s with agents := updateAgent aid offlineAgent s.agents }
      | some tid =>
        let tasks' := updateTask tid requeueTask s.tasks
        { s with
          tasks := tasks',
          agents := updateAgent aid offlineClearAgent s.agents,
          pendingQueue := insertQueue tasks' tid s.pendingQueue }
    else s

/-- Modelled from the spec: the operations of the coordination engine as a
labelled step alphabet, used to define the reachable states. -/
inductive Op where
  | register (name : String) (caps : List String) (now : Nat)
  | create (title description : String) (priority : Priority)
      (reqCaps : List String) (now : Nat)
  | getNext (aid now : Nat)
  | complete (aid : Nat) (result : String) (now : Nat)
  | fail (aid : Nat) (reason : String) (now : Nat)
  | heartbeat (aid now : Nat)
  | sweep (aid now threshold : Nat)
deriving DecidableEq

/-- The state transformation performed by one operation. -/
def applyOp : Op → CoordState → CoordState
  | .register name caps now, s => (Register name caps now s).2
  | .create title description priority reqCaps now, s =>
      (CreateTask title description priority reqCaps now s).2
  | .getNext aid now, s => (GetNextTask aid now s).2
  | .complete aid result now, s => (CompleteTask aid result now s).2
  | .fail aid reason now, s => (FailTask aid reason now s).2
  | .heartbeat aid now, s => (Heartbeat aid now s).2
  | .sweep aid now threshold, s => SweepAgent aid now threshold s

/-- Whether an operation is the liveness-requeue path. -/
def Op.isSweep : Op → Bool
  | .sweep _ _ _ => true
  | _ => false

/-- The legal task-state transitions of a single engine operation:
unchanged, Pending to Assigned (assignment), Assigned to Completed or
Failed (completion/failure), or Assigned back to Pending on the
liveness-requeue path only. -/
def TaskTransOK (before after : TaskState) (op : Op) : Prop :=
  before = after ∨
    (before = TaskState.Pending ∧ after = TaskState.Assigned) ∨
    (before = TaskState.Assigned ∧
      (after = TaskState.Completed ∨ after = TaskState.Failed)) ∨
    (before = TaskState.Assigned ∧ after = TaskState.Pending ∧ op.isSweep = true)

/-- Modelled from the spec: the empty initial coordinator state. -/
def initState : CoordState :=
  { agents := [], tasks := [], pendingQueue := [], nextAgentId := 0, nextTaskId := 0 }

/-- The coordinator states reachable from the initial state by the
engine's operations. -/
inductive Reachable : CoordState → Prop where
  | init : Reachable initState
  | step (op : Op) {s : CoordState} : Reachable s → Reachable (applyOp op s)

/-- Run a script of operations from a state, left to right. -/
def applyOps (ops : List Op) (s : CoordState) : CoordState :=
  ops.foldl (fun st op => applyOp op st) s

/-- Run a sequence of heartbeat calls, given as (agent id, instant)
pairs. -/
def applyHeartbeats (calls : List (Nat × Nat)) (s : CoordState) : CoordState :=
  calls.foldl (fun st c => (Heartbeat c.1 c.2 st).2) s

/-- Demo script: two unconstrained idle agents and one unconstrained
normal-priority task. -/
def scBase : CoordState :=
  applyOps [Op.register "A" [] 0, Op.register "B" [] 1,
    Op.create "T" "demo" .normal [] 2] initState

/-- Demo script: one unconstrained idle agent and tasks created in order
[low, urgent, normal]. -/
def scPriority : CoordState :=
  applyOps [Op.register "A" [] 0, Op.create "T1" "" .low [] 1,
    Op.create "T2" "" .urgent [] 2, Op.create "T3" "" .normal [] 3] initState

/-- Demo script: one unconstrained idle agent and two normal-priority
tasks created in order T1, T2. -/
def scFifo : CoordState :=
  applyOps [Op.register "A" [] 0, Op.create "T1" "" .normal [] 1,
    Op.create "T2" "" .normal [] 2] initState

/-- Demo script: one capability-tagged agent and one matching task. -/
def scCap : CoordState :=
  applyOps [Op.register "A" ["coding", "testing"] 0,
    Op.create "T" "demo" .high ["coding"] 1] initState

/-- Demo script: agent 0 and agent 1 share a capability; agent 0 has been
assigned the only task. -/
def scAssigned : CoordState :=
  applyOps [Op.register "A" ["coding"] 0, Op.register "B" ["coding"] 1,
    Op.create "T" "demo" .high ["coding"] 2, Op.getNext 0 5] initState

/-- An artificial (unreachable) state in which an agent's current task
record is already Completed, used to exercise the InvalidTransition
guard. -/
def scInvalid : CoordState :=
  { agents := [⟨0, "A", [], .Busy, some 0, 0, 0⟩],
    tasks := [⟨0, "T", "", .normal, [], .Completed, none, some "r", 0, none, some 1⟩],
    pendingQueue := [], nextAgentId := 1, nextTaskId := 1 }

/-- The propositional form of the queue ordering between two entries. -/
def QBefore (tasks : List Task) (a b : Nat) : Prop :=
  queueBefore tasks a b = true

/-- The consistency invariant of the coordinator state: unique ids,
id counters bounding all generated ids, the pending queue holding exactly
the Pending task ids in sorted (priority, creation) order, agent/task
cross-links agreeing, and the task-record invariant that `assigned_agent`
is set iff Assigned and `result` is set iff Completed or Failed. -/
structure Inv (s : CoordState) : Prop where
  tasks_nodup : (s.tasks.map Task.task_id).Nodup
  agents_nodup : (s.agents.map Agent.agent_id).Nodup
  tasks_lt : ∀ t ∈ s.tasks, t.task_id < s.nextTaskId
  agents_lt : ∀ a ∈ s.agents, a.agent_id < s.nextAgentId
  queue_mem : ∀ tid, tid ∈ s.pendingQueue ↔
    ∃ t ∈ s.tasks, t.task_id = tid ∧ t.state = TaskState.Pending
  queue_sorted : s.pendingQueue.Pairwise (QBefore s.tasks)
  agent_link : ∀ a ∈ s.agents,
    (a.status = AgentStatus.Busy ↔ a.current_task.isSome) ∧
    ∀ tid, a.current_task = some tid →
      ∃ t ∈ s.tasks, t.task_id = tid ∧ t.state = TaskState.Assigned ∧
        t.assigned_agent = some a.agent_id
  task_inv : ∀ t ∈ s.tasks,
    (t.assigned_agent.isSome ↔ t.state = TaskState.Assigned) ∧
    (t.result.isSome ↔ (t.state = TaskState.Completed ∨ t.state = TaskState.Failed))

/-- Modelled from the spec: the static visibility tag of a tool in the
missing server, minimally {local-only, remote-safe}. -/
inductive Visibility where
  | localOnly
  | remoteSafe
deriving DecidableEq

/-- Modelled from the spec: a tool descriptor of the missing server's
tool catalogue: a name and a visibility tag. -/
structure ToolDescriptor where
  name : String
  visibility : Visibility
deriving DecidableEq

/-- Modelled from the spec: the classification of an inbound connection,
{local, remote}. -/
inductive ConnectionType where
  | «local»
  | remote
deriving DecidableEq

/-- Modelled from the spec: the per-connection context consumed by the
tool visibility policy. -/
structure ConnectionContext where
  connection_type : ConnectionType
deriving DecidableEq

/-- Modelled from the spec: the filter statistics reported alongside the
visible tool list. -/
structure FilterStats where
  total_tools : Nat
  visible_tools : Nat
  filtered_out : Nat
  connection_type : ConnectionType
deriving DecidableEq

/-- Modelled from the spec: the missing `FilterTools` policy: a remote
context excludes all local-only tools; a local context sees every tool;
`stats` reports the counts and the connection type used. -/
def FilterTools (allTools : List ToolDescriptor) (context : ConnectionContext) :
    List ToolDescriptor × FilterStats :=
  let visible :=
    match context.connection_type with
    | .«local» => allTools
    | .remote => allTools.filter (fun t => t.visibility == .remoteSafe)
  (visible,
   { total_tools := allTools.length, visible_tools := visible.length,
     filtered_out := allTools.length - visible.length,
     connection_type := context.connection_type })

/-- Modelled from the spec: invocation-time enforcement in the missing
server: invoking a tool whose name is not in the visible set of the
caller's context fails with Forbidden rather than silently no-opping. -/
def invoke_tool (allTools : List ToolDescriptor) (context : ConnectionContext)
    (name : String) : Except CoordError Unit :=
  if (FilterTools allTools context).1.any (fun t => t.name == name) then .ok ()
  else .error .Forbidden

/-- Modelled from the spec and the tool names exercised by
`scripts/test_multi_interface.py`: the concrete tool catalogue —
coordination tools are remote-safe, filesystem/terminal/editor tools are
local-only, the proxied entity/doc tools are remote-safe. -/
def toolCatalogue : List ToolDescriptor :=
  [⟨"register_agent", .remoteSafe⟩, ⟨"create_task", .remoteSafe⟩,
   ⟨"get_next_task", .remoteSafe⟩, ⟨"complete_task", .remoteSafe⟩,
   ⟨"heartbeat", .remoteSafe⟩, ⟨"get_task_board", .remoteSafe⟩,
   ⟨"read_file", .localOnly⟩, ⟨"write_file", .localOnly⟩,
   ⟨"vscode_create_file", .localOnly⟩, ⟨"run_in_terminal", .localOnly⟩,
   ⟨"create_entities", .remoteSafe⟩, ⟨"sequentialthinking", .remoteSafe⟩,
   ⟨"get-library-docs", .remoteSafe⟩]

/-- The names of the coordination tools. -/
def coordinationToolNames : List String :=
  ["register_agent", "create_task", "get_next_task", "complete_task",
   "heartbeat", "get_task_board"]

/-- A JSON value appearing in the `arguments` dict built by the example
MCP client (string or list of strings). -/
inductive ArgVal where
  | str (s : String)
  | strList (l : List String)
deriving DecidableEq

namespace AgentCoordinatorMCP

/-- Embedded from `examples/mcp_client_example.py`,
`AgentCoordinatorMCP.create_task`: builds the `arguments` dict with
`title`, `description` and `priority` always present, and adds
`required_capabilities` only when the Python value is truthy (a non-empty
list); `None` and `[]` both omit the key. -/
def create_task (title description : String) (priority : String)
    (required_capabilities : Option (List String)) : List (String × ArgVal) :=
  let args := [("title", ArgVal.str title), ("description", ArgVal.str description),
               ("priority", ArgVal.str priority)]
  match required_capabilities with
  | none => args
  | some caps =>
    if caps.isEmpty then args
    else args ++ [("required_capabilities", ArgVal.strList caps)]

/-- Embedded from `examples/mcp_client_example.py`: the default value of
the `priority` parameter of `create_task`. -/
def create_task_default_priority : String := "normal"

end AgentCoordinatorMCP

/-! ### Lookup and update lemmas -/

theorem findTask_some {tasks : List Task} {tid : Nat} {t : Task}
    (h : findTask tasks tid = some t) : t ∈ tasks ∧ t.task_id = tid := by
  unfold findTask at h
  exact ⟨List.mem_of_find?_eq_some h, by simpa using List.find?_some h⟩

theorem findAgent_some {agents : List Agent} {aid : Nat} {a : Agent}
    (h : findAgent agents aid = some a) : a ∈ agents ∧ a.agent_id = aid := by
  unfold findAgent at h
  exact ⟨List.mem_of_find?_eq_some h, by simpa using List.find?_some h⟩

theorem findTask_cons {u : Task} {rest : List Task} {tid : Nat} :
    findTask (u :: rest) tid = if u.task_id = tid then some u else findTask rest tid := by
  by_cases h : u.task_id = tid
  · simp [findTask, List.find?_cons, h]
  · simp [findTask, List.find?_cons, h]

theorem findAgent_cons {u : Agent} {rest : List Agent} {aid : Nat} :
    findAgent (u :: rest) aid = if u.agent_id = aid then some u else findAgent rest aid := by
  by_cases h : u.agent_id = aid
  · simp [findAgent, List.find?_cons, h]
  · simp [findAgent, List.find?_cons, h]

theorem findTask_of_mem_nodup {tasks : List Task} {t : Task}
    (hnd : (tasks.map Task.task_id).Nodup) (hm : t ∈ tasks) :
    findTask tasks t.task_id = some t := by
  induction tasks with
  | nil => cases hm
  | cons u rest ih =>
    simp only [List.map_cons, List.nodup_cons] at hnd
    rw [findTask_cons]
    rcases List.mem_cons.mp hm with rfl | hm'
    · simp
    · have hne : u.task_id ≠ t.task_id := fun he =>
        hnd.1 (he ▸ List.mem_map_of_mem Task.task_id hm')
      rw [if_neg hne]
      exact ih hnd.2 hm'

theorem findAgent_of_mem_nodup {agents : List Agent} {a : Agent}
    (hnd : (agents.map Agent.agent_id).Nodup) (hm : a ∈ agents) :
    findAgent agents a.agent_id = some a := by
  induction agents with
  | nil => cases hm
  | cons u rest ih =>
    simp only [List.map_cons, List.nodup_cons] at hnd
    rw [findAgent_cons]
    rcases List.mem_cons.mp hm with rfl | hm'
    · simp
    · have hne : u.agent_id ≠ a.agent_id := fun he =>
        hnd.1 (he ▸ List.mem_map_of_mem Agent.agent_id hm')
      rw [if_neg hne]
      exact ih hnd.2 hm'

theorem task_id_inj {tasks : List Task} (hnd : (tasks.map Task.task_id).Nodup)
    {t u : Task} (ht : t ∈ tasks) (hu : u ∈ tasks)
    (he : t.task_id = u.task_id) : t = u := by
  have h1 := findTask_of_mem_nodup hnd ht
  have h2 := findTask_of_mem_nodup hnd hu
  rw [he, h2] at h1
  exact (Option.some_inj.mp h1).symm

theorem agent_id_inj {agents : List Agent} (hnd : (agents.map Agent.agent_id).Nodup)
    {a b : Agent} (ha : a ∈ agents) (hb : b ∈ agents)
    (he : a.agent_id = b.agent_id) : a = b := by
  have h1 := findAgent_of_mem_nodup hnd ha
  have h2 := findAgent_of_mem_nodup hnd hb
  rw [he, h2] at h1
  exact (Option.some_inj.mp h1).symm

theorem map_task_id_updateTask {tid : Nat} {f : Task → Task} {tasks : List Task}
    (hf : ∀ u, (f u).task_id = u.task_id) :
    (updateTask tid f tasks).map Task.task_id = tasks.map Task.task_id := by
  unfold updateTask
  rw [List.map_map]
  apply List.map_congr_left
  intro t _
  by_cases h : t.task_id = tid <;> simp [h, hf]

theorem map_agent_id_updateAgent {aid : Nat} {f : Agent → Agent} {agents : List Agent}
    (hf : ∀ u, (f u).agent_id = u.agent_id) :
    (updateAgent aid f agents).map Agent.agent_id = agents.map Agent.agent_id := by
  unfold updateAgent
  rw [List.map_map]
  apply List.map_congr_left
  intro a _
  by_cases h : a.agent_id = aid <;> simp [h, hf]

theorem mem_updateTask {tid : Nat} {f : Task → Task} {tasks : List Task} {u : Task} :
    u ∈ updateTask tid f tasks ↔
      ∃ t ∈ tasks, u = if t.task_id = tid then f t else t := by
  unfold updateTask
  simp only [List.mem_map, eq_comm]

theorem mem_updateAgent {aid : Nat} {f : Agent → Agent} {agents : List Agent} {b : Agent} :
    b ∈ updateAgent aid f agents ↔
      ∃ a ∈ agents, b = if a.agent_id = aid then f a else a := by
  unfold updateAgent
  simp only [List.mem_map, eq_comm]

theorem findTask_updateTask_self {tid : Nat} {f : Task → Task} {tasks : List Task}
    (hf : ∀ u, (f u).task_id = u.task_id) :
    findTask (updateTask tid f tasks) tid = (findTask tasks tid).map f := by
  induction tasks with
  | nil => rfl
  | cons t rest ih =>
    simp only [updateTask, List.map_cons] at ih ⊢
    by_cases h : t.task_id = tid
    · rw [if_pos h, findTask_cons, findTask_cons, if_pos ((hf t).trans h), if_pos h]
      rfl
    · rw [if_neg h, findTask_cons, findTask_cons, if_neg h, if_neg h]
      exact ih

theorem findTask_updateTask_ne {tid tid' : Nat} {f : Task → Task} {tasks : List Task}
    (hf : ∀ u, (f u).task_id = u.task_id) (hne : tid' ≠ tid) :
    findTask (updateTask tid f tasks) tid' = findTask tasks tid' := by
  induction tasks with
  | nil => rfl
  | cons t rest ih =>
    simp only [updateTask, List.map_cons] at ih ⊢
    by_cases h : t.task_id = tid
    · rw [if_pos h, findTask_cons, findTask_cons,
        if_neg (by rw [hf t, h]; exact Ne.symm hne), if_neg (by rw [h]; exact Ne.symm hne)]
      exact ih
    · rw [if_neg h, findTask_cons, findTask_cons]
      by_cases h3 : t.task_id = tid'
      · rw [if_pos h3, if_pos h3]
      · rw [if_neg h3, if_neg h3]
        exact ih

theorem findAgent_updateAgent_self {aid : Nat} {f : Agent → Agent} {agents : List Agent}
    (hf : ∀ u, (f u).agent_id = u.agent_id) :
    findAgent (updateAgent aid f agents) aid = (findAgent agents aid).map f := by
  induction agents with
  | nil => rfl
  | cons a rest ih =>
    simp only [updateAgent, List.map_cons] at ih ⊢
    by_cases h : a.agent_id = aid
    · rw [if_pos h, findAgent_cons, findAgent_cons, if_pos ((hf a).trans h), if_pos h]
      rfl
    · rw [if_neg h, findAgent_cons, findAgent_cons, if_neg h, if_neg h]
      exact ih

theorem findAgent_updateAgent_ne {aid aid' : Nat} {f : Agent → Agent} {agents : List Agent}
    (hf : ∀ u, (f u).agent_id = u.agent_id) (hne : aid' ≠ aid) :
    findAgent (updateAgent aid f agents) aid' = findAgent agents aid' := by
  induction agents with
  | nil => rfl
  | cons a rest ih =>
    simp only [updateAgent, List.map_cons] at ih ⊢
    by_cases h : a.agent_id = aid
    · rw [if_pos h, findAgent_cons, findAgent_cons,
        if_neg (by rw [hf a, h]; exact Ne.symm hne), if_neg (by rw [h]; exact Ne.symm hne)]
      exact ih
    · rw [if_neg h, findAgent_cons, findAgent_cons]
      by_cases h3 : a.agent_id = aid'
      · rw [if_pos h3, if_pos h3]
      · rw [if_neg h3, if_neg h3]
        exact ih

theorem findTask_append_left {tasks l : List Task} {tid : Nat} {t : Task}
    (h : findTask tasks tid = some t) : findTask (tasks ++ l) tid = some t := by
  unfold findTask at h ⊢
  rw [List.find?_append, h]
  rfl

theorem findTask_append_of_not_mem {tasks : List Task} {t : Task}
    (h : ∀ u ∈ tasks, u.task_id ≠ t.task_id) :
    findTask (tasks ++ [t]) t.task_id = some t := by
  unfold findTask
  rw [List.find?_append]
  have h1 : tasks.find? (fun u => u.task_id == t.task_id) = none := by
    rw [List.find?_eq_none]
    intro u hu
    simpa using h u hu
  simp [h1]

/-! ### Queue ordering lemmas -/

theorem keyLt_iff {ta tb : Task} : keyLt ta tb = true ↔
    (tb.priority.rank < ta.priority.rank ∨
      (ta.priority.rank = tb.priority.rank ∧ ta.task_id < tb.task_id)) := by
  simp [keyLt]

theorem keyLt_trans {a b c : Task} (h1 : keyLt a b = true) (h2 : keyLt b c = true) :
    keyLt a c = true := by
  rw [keyLt_iff] at h1 h2 ⊢
  omega

theorem keyLt_total {a b : Task} (h : a.task_id ≠ b.task_id) :
    keyLt a b = true ∨ keyLt b a = true := by
  rw [keyLt_iff, keyLt_iff]
  omega

theorem keyLt_congr {f : Task → Task} (hf : ∀ u, (f u).task_id = u.task_id)
    (hfp : ∀ u, (f u).priority = u.priority) (a b : Task) :
    keyLt (f a) (f b) = keyLt a b ∧ keyLt (f a) b = keyLt a b ∧ keyLt a (f b) = keyLt a b := by
  refine ⟨?_, ?_, ?_⟩ <;> simp [keyLt, hf, hfp]

theorem queueBefore_iff {tasks : List Task} {x y : Nat} :
    queueBefore tasks x y = true ↔
      ∃ tx ty, findTask tasks x = some tx ∧ findTask tasks y = some ty ∧
        keyLt tx ty = true := by
  unfold queueBefore
  cases hx : findTask tasks x with
  | none => simp
  | some tx =>
    cases hy : findTask tasks y with
    | none => simp
    | some ty => simp

theorem queueBefore_ne {tasks : List Task} {x y : Nat}
    (h : queueBefore tasks x y = true) : x ≠ y := by
  rcases queueBefore_iff.mp h with ⟨tx, ty, hx, hy, hk⟩
  intro he
  subst he
  rw [hx] at hy
  obtain rfl : tx = ty := Option.some_inj.mp hy
  rw [keyLt_iff] at hk
  omega

theorem queueBefore_updateTask {tid : Nat} {f : Task → Task} {tasks : List Task}
    (hf : ∀ u, (f u).task_id = u.task_id)
    (hfp : ∀ u, (f u).priority = u.priority) (x y : Nat) :
    queueBefore (updateTask tid f tasks) x y = queueBefore tasks x y := by
  have key : ∀ z, findTask (updateTask tid f tasks) z =
      if z = tid then (findTask tasks tid).map f else findTask tasks z := by
    intro z
    by_cases hz : z = tid
    · rw [hz, if_pos rfl, findTask_updateTask_self hf]
    · rw [if_neg hz, findTask_updateTask_ne hf hz]
  unfold queueBefore
  rw [key x, key y]
  by_cases hx : x = tid <;> by_cases hy : y = tid
  · rw [if_pos hx, if_pos hy, hx, hy]
    cases h : findTask tasks tid <;> simp [keyLt, hf, hfp]
  · rw [if_pos hx, if_neg hy, hx]
    cases h : findTask tasks tid <;> cases h2 : findTask tasks y <;>
      simp [keyLt, hf, hfp]
  · rw [if_neg hx, if_pos hy, hy]
    cases h : findTask tasks x <;> cases h2 : findTask tasks tid <;>
      simp [keyLt, hf, hfp]
  · rw [if_neg hx, if_neg hy]

theorem queueBefore_append {tasks l : List Task} {x y : Nat} {tx ty : Task}
    (hx : findTask tasks x = some tx) (hy : findTask tasks y = some ty) :
    queueBefore (tasks ++ l) x y = queueBefore tasks x y := by
  unfold queueBefore
  rw [findTask_append_left hx, findTask_append_left hy, hx, hy]

/-! ### Ordered insertion lemmas -/

theorem mem_insertOrd {r : Nat → Nat → Bool} {tid a : Nat} {l : List Nat} :
    a ∈ insertOrd r tid l ↔ a = tid ∨ a ∈ l := by
  induction l with
  | nil => simp [insertOrd]
  | cons x xs ih =>
    by_cases h : r tid x = true
    · simp only [insertOrd, if_pos h, List.mem_cons]
      try tauto
    · simp only [insertOrd, if_neg h, List.mem_cons, ih]
      try tauto

theorem pairwise_insertOrd {r : Nat → Nat → Bool} {tid : Nat} {l : List Nat}
    (hl : l.Pairwise (fun a b => r a b = true))
    (htot : ∀ x ∈ l, r tid x = true ∨ r x tid = true)
    (htrans : ∀ x ∈ l, ∀ y ∈ l, r tid x = true → r x y = true → r tid y = true) :
    (insertOrd r tid l).Pairwise (fun a b => r a b = true) := by
  induction l with
  | nil => simp [insertOrd]
  | cons x xs ih =>
    rcases List.pairwise_cons.mp hl with ⟨hx, hxs⟩
    by_cases h : r tid x = true
    · simp only [insertOrd, if_pos h]
      refine List.pairwise_cons.mpr ⟨?_, hl⟩
      intro y hy
      rcases List.mem_cons.mp hy with rfl | hy'
      · exact h
      · exact htrans x (by simp) y (List.mem_cons_of_mem x hy') h (hx y hy')
    · simp only [insertOrd, if_neg h]
      refine List.pairwise_cons.mpr ⟨?_, ih hxs ?_ ?_⟩
      · intro y hy
        rcases mem_insertOrd.mp hy with rfl | hy'
        · rcases htot x (by simp) with h1 | h2
          · exact absurd h1 h
          · exact h2
        · exact hx y hy'
      · intro z hz
        exact htot z (List.mem_cons_of_mem x hz)
      · intro z hz w hw hz1 hz2
        exact htrans z (List.mem_cons_of_mem x hz) w (List.mem_cons_of_mem x hw) hz1 hz2

/-! ### Scheduling scan lemmas -/

theorem firstEligible_cons_none {tasks : List Task} {caps : List String} {x : Nat}
    {rest : List Nat} (hx : findTask tasks x = none) :
    firstEligible tasks caps (x :: rest) = firstEligible tasks caps rest := by
  simp [firstEligible, hx]

theorem firstEligible_cons_some {tasks : List Task} {caps : List String} {x : Nat}
    {rest : List Nat} {t : Task} (hx : findTask tasks x = some t) :
    firstEligible tasks caps (x :: rest) =
      if Eligible t.required_capabilities caps then some x
      else firstEligible tasks caps rest := by
  simp [firstEligible, hx]

theorem firstEligible_eq_some {tasks : List Task} {caps : List String} {q : List Nat}
    {tid : Nat} (h : firstEligible tasks caps q = some tid) :
    ∃ q1 q2, q = q1 ++ tid :: q2 ∧
      (∃ t, findTask tasks tid = some t ∧ Eligible t.required_capabilities caps = true) ∧
      ∀ x ∈ q1, ∀ u, findTask tasks x = some u →
        Eligible u.required_capabilities caps = false := by
  induction q with
  | nil => cases h
  | cons x rest ih =>
    cases hx : findTask tasks x with
    | none =>
      rw [firstEligible_cons_none hx] at h
      rcases ih h with ⟨q1, q2, rfl, hel, hfirst⟩
      refine ⟨x :: q1, q2, rfl, hel, ?_⟩
      intro y hy u hu
      rcases List.mem_cons.mp hy with rfl | hy'
      · rw [hx] at hu; cases hu
      · exact hfirst y hy' u hu
    | some t =>
      rw [firstEligible_cons_some hx] at h
      by_cases he : Eligible t.required_capabilities caps = true
      · rw [if_pos he] at h
        obtain rfl : x = tid := Option.some_inj.mp h
        exact ⟨[], rest, rfl, ⟨t, hx, he⟩, by simp⟩
      · rw [if_neg he] at h
        rcases ih h with ⟨q1, q2, rfl, hel, hfirst⟩
        refine ⟨x :: q1, q2, rfl, hel, ?_⟩
        intro y hy u hu
        rcases List.mem_cons.mp hy with rfl | hy'
        · rw [hx] at hu
          obtain rfl : t = u := Option.some_inj.mp hu
          exact Bool.eq_false_iff.mpr he
        · exact hfirst y hy' u hu

theorem firstEligible_eq_none {tasks : List Task} {caps : List String} {q : List Nat} :
    firstEligible tasks caps q = none ↔
      ∀ x ∈ q, ∀ u, findTask tasks x = some u →
        Eligible u.required_capabilities caps = false := by
  induction q with
  | nil => simp [firstEligible]
  | cons x rest ih =>
    cases hx : findTask tasks x with
    | none =>
      rw [firstEligible_cons_none hx, ih]
      constructor
      · intro H y hy u hu
        rcases List.mem_cons.mp hy with rfl | hy'
        · rw [hx] at hu; cases hu
        · exact H y hy' u hu
      · intro H y hy u hu
        exact H y (List.mem_cons_of_mem x hy) u hu
    | some t =>
      rw [firstEligible_cons_some hx]
      by_cases he : Eligible t.required_capabilities caps = true
      · rw [if_pos he]
        constructor
        · intro H; cases H
        · intro H
          have h2 := H x (by simp) t hx
          rw [he] at h2
          cases h2
      · rw [if_neg he, ih]
        constructor
        · intro H y hy u hu
          rcases List.mem_cons.mp hy with rfl | hy'
          · rw [hx] at hu
            obtain rfl : t = u := Option.some_inj.mp hu
            exact Bool.eq_false_iff.mpr he
          · exact H y hy' u hu
        · intro H y hy u hu
          exact H y (List.mem_cons_of_mem x hy) u hu

/-! ### Invariant helper lemmas -/

theorem Inv.queue_find {s : CoordState} (hs : Inv s) {tid : Nat}
    (h : tid ∈ s.pendingQueue) :
    ∃ t, findTask s.tasks tid = some t ∧ t.state = TaskState.Pending := by
  rcases (hs.queue_mem tid).mp h with ⟨t, ht, rfl, hp⟩
  exact ⟨t, findTask_of_mem_nodup hs.tasks_nodup ht, hp⟩

theorem Inv.not_pending_not_mem {s : CoordState} (hs : Inv s) {t : Task}
    (ht : t ∈ s.tasks) (hstate : t.state ≠ TaskState.Pending) :
    t.task_id ∉ s.pendingQueue := by
  intro hmem
  rcases (hs.queue_mem _).mp hmem with ⟨u, hu, hid, hp⟩
  have he : u = t := task_id_inj hs.tasks_nodup hu ht hid
  rw [he] at hp
  exact hstate hp

theorem queueBefore_trans {tasks : List Task} {x y z : Nat}
    (h1 : queueBefore tasks x y = true) (h2 : queueBefore tasks y z = true) :
    queueBefore tasks x z = true := by
  rcases queueBefore_iff.mp h1 with ⟨tx, ty, hx, hy, k1⟩
  rcases queueBefore_iff.mp h2 with ⟨ty', tz, hy', hz, k2⟩
  rw [hy] at hy'
  obtain rfl : ty = ty' := Option.some_inj.mp hy'
  exact queueBefore_iff.mpr ⟨tx, tz, hx, hz, keyLt_trans k1 k2⟩

theorem pairwise_queue_updateTask {tasks : List Task} {q : List Nat} {tid : Nat}
    {f : Task → Task} (hf : ∀ u, (f u).task_id = u.task_id)
    (hfp : ∀ u, (f u).priority = u.priority)
    (h : q.Pairwise (QBefore tasks)) :
    q.Pairwise (QBefore (updateTask tid f tasks)) := by
  refine h.imp ?_
  intro a b hab
  unfold QBefore at hab ⊢
  rw [queueBefore_updateTask hf hfp]
  exact hab

/-! ### Branch equations for the operations -/

theorem GetNextTask_eq_none_agent {s : CoordState} {aid now : Nat}
    (h : findAgent s.agents aid = none) : GetNextTask aid now s = (none, s) := by
  simp [GetNextTask, h]

theorem GetNextTask_eq_not_idle {s : CoordState} {aid now : Nat} {a : Agent}
    (h : findAgent s.agents aid = some a) (h2 : ¬a.status = AgentStatus.Idle) :
    GetNextTask aid now s = (none, s) := by
  simp [GetNextTask, h, h2]

theorem GetNextTask_eq_no_task {s : CoordState} {aid now : Nat} {a : Agent}
    (h : findAgent s.agents aid = some a) (h2 : a.status = AgentStatus.Idle)
    (h3 : firstEligible s.tasks a.capabilities s.pendingQueue = none) :
    GetNextTask aid now s = (none, s) := by
  simp [GetNextTask, h, h2, h3]

theorem GetNextTask_eq_success {s : CoordState} {aid now tid : Nat} {a : Agent}
    (h : findAgent s.agents aid = some a) (h2 : a.status = AgentStatus.Idle)
    (h3 : firstEligible s.tasks a.capabilities s.pendingQueue = some tid) :
    GetNextTask aid now s =
      (some tid,
       { s with
         tasks := updateTask tid (assignTask aid now) s.tasks,
         agents := updateAgent aid (busyAgent tid) s.agents,
         pendingQueue := s.pendingQueue.filter (fun x => x ≠ tid) }) := by
  simp [GetNextTask, h, h2, h3]

theorem CompleteTask_eq_notfound {s : CoordState} {aid : Nat} {res : String} {now : Nat}
    (h : findAgent s.agents aid = none) :
    CompleteTask aid res now s = (.error .NotFound, s) := by
  simp [CompleteTask, h]

theorem CompleteTask_eq_noactive {s : CoordState} {aid : Nat} {res : String} {now : Nat}
    {a : Agent} (h : findAgent s.agents aid = some a) (h2 : a.current_task = none) :
    CompleteTask aid res now s = (.error .NoActiveTask, s) := by
  simp [CompleteTask, h, h2]

theorem CompleteTask_eq_task_missing {s : CoordState} {aid : Nat} {res : String}
    {now : Nat} {a : Agent} {tid : Nat} (h : findAgent s.agents aid = some a)
    (h2 : a.current_task = some tid) (h3 : findTask s.tasks tid = none) :
    CompleteTask aid res now s = (.error .NotFound, s) := by
  simp [CompleteTask, h, h2, h3]

theorem CompleteTask_eq_invalid {s : CoordState} {aid : Nat} {res : String}
    {now : Nat} {a : Agent} {tid : Nat} {t : Task} (h : findAgent s.agents aid = some a)
    (h2 : a.current_task = some tid) (h3 : findTask s.tasks tid = some t)
    (h4 : ¬t.state = TaskState.Assigned) :
    CompleteTask aid res now s = (.error .InvalidTransition, s) := by
  simp [CompleteTask, h, h2, h3, h4]

theorem CompleteTask_eq_success {s : CoordState} {aid : Nat} {res : String}
    {now : Nat} {a : Agent} {tid : Nat} {t : Task} (h : findAgent s.agents aid = some a)
    (h2 : a.current_task = some tid) (h3 : findTask s.tasks tid = some t)
    (h4 : t.state = TaskState.Assigned) :
    CompleteTask aid res now s =
      (.ok tid,
       { s with
         tasks := updateTask tid (finishTask .Completed res now) s.tasks,
         agents := updateAgent aid (idleAgent now) s.agents }) := by
  simp [CompleteTask, h, h2, h3, h4]

theorem FailTask_eq_notfound {s : CoordState} {aid : Nat} {reason : String} {now : Nat}
    (h : findAgent s.agents aid = none) :
    FailTask aid reason now s = (.error .NotFound, s) := by
  simp [FailTask, h]

theorem FailTask_eq_noactive {s : CoordState} {aid : Nat} {reason : String} {now : Nat}
    {a : Agent} (h : findAgent s.agents aid = some a) (h2 : a.current_task = none) :
    FailTask aid reason now s = (.error .NoActiveTask, s) := by
  simp [FailTask, h, h2]

theorem FailTask_eq_task_missing {s : CoordState} {aid : Nat} {reason : String}
    {now : Nat} {a : Agent} {tid : Nat} (h : findAgent s.agents aid = some a)
    (h2 : a.current_task = some tid) (h3 : findTask s.tasks tid = none) :
    FailTask aid reason now s = (.error .NotFound, s) := by
  simp [FailTask, h, h2, h3]

theorem FailTask_eq_invalid {s : CoordState} {aid : Nat} {reason : String}
    {now : Nat} {a : Agent} {tid : Nat} {t : Task} (h : findAgent s.agents aid = some a)
    (h2 : a.current_task = some tid) (h3 : findTask s.tasks tid = some t)
    (h4 : ¬t.state = TaskState.Assigned) :
    FailTask aid reason now s = (.error .InvalidTransition, s) := by
  simp [FailTask, h, h2, h3, h4]

theorem FailTask_eq_success {s : CoordState} {aid : Nat} {reason : String}
    {now : Nat} {a : Agent} {tid : Nat} {t : Task} (h : findAgent s.agents aid = some a)
    (h2 : a.current_task = some tid) (h3 : findTask s.tasks tid = some t)
    (h4 : t.state = TaskState.Assigned) :
    FailTask aid reason now s =
      (.ok tid,
       { s with
         tasks := updateTask tid (finishTask .Failed reason now) s.tasks,
         agents := updateAgent aid (idleAgent now) s.agents }) := by
  simp [FailTask, h, h2, h3, h4]

theorem Heartbeat_eq_notfound {s : CoordState} {aid now : Nat}
    (h : findAgent s.agents aid = none) :
    Heartbeat aid now s = (.error .NotFound, s) := by
  simp [Heartbeat, h]

theorem Heartbeat_eq_ok {s : CoordState} {aid now : Nat} {a : Agent}
    (h : findAgent s.agents aid = some a) :
    Heartbeat aid now s =
      (.ok (), { s with agents := updateAgent aid (touchAgent now) s.agents }) := by
  simp [Heartbeat, h]

theorem SweepAgent_eq_notfound {s : CoordState} {aid now threshold : Nat}
    (h : findAgent s.agents aid = none) : SweepAgent aid now threshold s = s := by
  simp [SweepAgent, h]

theorem SweepAgent_eq_fresh {s : CoordState} {aid now threshold : Nat} {a : Agent}
    (h : findAgent s.agents aid = some a)
    (h2 : ¬threshold < now - a.last_heartbeat) : SweepAgent aid now threshold s = s := by
  simp [SweepAgent, h, h2]

theorem SweepAgent_eq_no_task {s : CoordState} {aid now threshold : Nat} {a : Agent}
    (h : findAgent s.agents aid = some a) (h2 : threshold < now - a.last_heartbeat)
    (h3 : a.current_task = none) :
    SweepAgent aid now threshold s =
      { s with agents := updateAgent aid offlineAgent s.agents } := by
  simp [SweepAgent, h, h2, h3]

theorem SweepAgent_eq_requeue {s : CoordState} {aid now threshold : Nat} {a : Agent}
    {tid : Nat} (h : findAgent s.agents aid = some a)
    (h2 : threshold < now - a.last_heartbeat) (h3 : a.current_task = some tid) :
    SweepAgent aid now threshold s =
      { s with
        tasks := updateTask tid requeueTask s.tasks,
        agents := updateAgent aid offlineClearAgent s.agents,
        pendingQueue := insertQueue (updateTask tid requeueTask s.tasks) tid
          s.pendingQueue } := by
  simp [SweepAgent, h, h2, h3]

/-! ### Invariant preservation -/

theorem inv_register {s : CoordState} (hs : Inv s) (name : String)
    (caps : List String) (now : Nat) : Inv (Register name caps now s).2 := by
  constructor
  · exact hs.tasks_nodup
  · rw [Register]
    simp only [List.map_append, List.map_cons, List.map_nil]
    rw [List.nodup_append]
    refine ⟨hs.agents_nodup, List.nodup_singleton _, ?_⟩
    intro x hx hy
    simp only [List.mem_singleton] at hy
    rcases List.mem_map.mp hx with ⟨ag, hag, rfl⟩
    have := hs.agents_lt ag hag
    omega
  · exact hs.tasks_lt
  · intro a ha
    rw [Register] at ha
    rcases List.mem_append.mp ha with h | h
    · have := hs.agents_lt a h
      simp only [Register]
      omega
    · simp only [List.mem_singleton] at h
      subst h
      simp [Register]
  · exact hs.queue_mem
  · exact hs.queue_sorted
  · intro a ha
    rw [Register] at ha
    rcases List.mem_append.mp ha with h | h
    · exact hs.agent_link a h
    · simp only [List.mem_singleton] at h
      subst h
      refine ⟨by simp, ?_⟩
      intro tid htid
      cases htid
  · exact hs.task_inv

theorem inv_create {s : CoordState} (hs : Inv s) (title description : String)
    (priority : Priority) (reqCaps : List String) (now : Nat) :
    Inv (CreateTask title description priority reqCaps now s).2 := by
  set t : Task :=
    { task_id := s.nextTaskId, title := title, description := description,
      priority := priority, required_capabilities := reqCaps,
      state := .Pending, assigned_agent := none, result := none,
      created_at := now, assigned_at := none, completed_at := none } with ht
  have hfresh : ∀ u ∈ s.tasks, u.task_id ≠ t.task_id := by
    intro u hu
    have := hs.tasks_lt u hu
    simp only [ht]
    omega
  have hfind_new : findTask (s.tasks ++ [t]) t.task_id = some t :=
    findTask_append_of_not_mem hfresh
  constructor
  · rw [CreateTask]
    simp only [List.map_append, List.map_cons, List.map_nil]
    rw [List.nodup_append]
    refine ⟨hs.tasks_nodup, List.nodup_singleton _, ?_⟩
    intro x hx hy
    simp only [List.mem_singleton] at hy
    rcases List.mem_map.mp hx with ⟨u, hu, rfl⟩
    have := hs.tasks_lt u hu
    try simp [ht] at hy
    omega
  · exact hs.agents_nodup
  · intro u hu
    rw [CreateTask] at hu
    rcases List.mem_append.mp hu with h | h
    · have := hs.tasks_lt u h
      simp only [CreateTask]
      omega
    · simp only [List.mem_singleton] at h
      subst h
      simp [CreateTask, ht]
  · exact hs.agents_lt
  · intro tid
    simp only [CreateTask, insertQueue]
    rw [mem_insertOrd]
    constructor
    · rintro (rfl | hq)
      · exact ⟨t, List.mem_append_right _ (by simp), rfl, rfl⟩
      · rcases (hs.queue_mem tid).mp hq with ⟨u, hu, hid, hp⟩
        exact ⟨u, List.mem_append_left _ hu, hid, hp⟩
    · rintro ⟨u, hu, hid, hp⟩
      rcases List.mem_append.mp hu with h | h
      · exact Or.inr ((hs.queue_mem tid).mpr ⟨u, h, hid, hp⟩)
      · simp only [List.mem_singleton] at h
        subst h
        exact Or.inl hid.symm
  · simp only [CreateTask, insertQueue]
    apply pairwise_insertOrd
    · refine hs.queue_sorted.imp_of_mem ?_
      intro a b ha hb hab
      rcases hs.queue_find ha with ⟨ta, hta, _⟩
      rcases hs.queue_find hb with ⟨tb, htb, _⟩
      unfold QBefore at hab
      rw [queueBefore_append hta htb]
      exact hab
    · intro x hx
      rcases hs.queue_find hx with ⟨tx, htx, _⟩
      have h1 : findTask (s.tasks ++ [t]) x = some tx := findTask_append_left htx
      have hxne : tx.task_id ≠ t.task_id := hfresh tx (findTask_some htx).1
      have hxne2 : t.task_id ≠ tx.task_id := Ne.symm hxne
      rcases keyLt_total hxne2 with h | h
      · exact Or.inl (queueBefore_iff.mpr ⟨t, tx, hfind_new, h1, h⟩)
      · exact Or.inr (queueBefore_iff.mpr ⟨tx, t, h1, hfind_new, h⟩)
    · intro x _ y _ h1 h2
      exact queueBefore_trans h1 h2
  · intro a ha
    rcases hs.agent_link a ha with ⟨hbusy, hlink⟩
    refine ⟨hbusy, ?_⟩
    intro tid htid
    rcases hlink tid htid with ⟨u, hu, hid, hst, hass⟩
    exact ⟨u, List.mem_append_left _ hu, hid, hst, hass⟩
  · intro u hu
    rw [CreateTask] at hu
    rcases List.mem_append.mp hu with h | h
    · exact hs.task_inv u h
    · simp only [List.mem_singleton] at h
      subst h
      simp [ht]

theorem assignTask_task_id (aid now : Nat) :
    ∀ u, (assignTask aid now u).task_id = u.task_id := fun _ => rfl

theorem assignTask_priority (aid now : Nat) :
    ∀ u, (assignTask aid now u).priority = u.priority := fun _ => rfl

theorem finishTask_task_id (st : TaskState) (res : String) (now : Nat) :
    ∀ u, (finishTask st res now u).task_id = u.task_id := fun _ => rfl

theorem finishTask_priority (st : TaskState) (res : String) (now : Nat) :
    ∀ u, (finishTask st res now u).priority = u.priority := fun _ => rfl

theorem requeueTask_task_id : ∀ u, (requeueTask u).task_id = u.task_id := fun _ => rfl

theorem requeueTask_priority : ∀ u, (requeueTask u).priority = u.priority := fun _ => rfl

theorem busyAgent_agent_id (tid : Nat) :
    ∀ u, (busyAgent tid u).agent_id = u.agent_id := fun _ => rfl

theorem idleAgent_agent_id (now : Nat) :
    ∀ u, (idleAgent now u).agent_id = u.agent_id := fun _ => rfl

theorem touchAgent_agent_id (now : Nat) :
    ∀ u, (touchAgent now u).agent_id = u.agent_id := fun _ => rfl

theorem offlineAgent_agent_id : ∀ u, (offlineAgent u).agent_id = u.agent_id :=
  fun _ => rfl

theorem offlineClearAgent_agent_id :
    ∀ u, (offlineClearAgent u).agent_id = u.agent_id := fun _ => rfl

theorem inv_getNext {s : CoordState} (hs : Inv s) (aid now : Nat) :
    Inv (GetNextTask aid now s).2 := by
  cases ha : findAgent s.agents aid with
  | none =>
    rw [GetNextTask_eq_none_agent ha]
    exact hs
  | some a =>
    by_cases hidle : a.status = AgentStatus.Idle
    · cases hfe : firstEligible s.tasks a.capabilities s.pendingQueue with
      | none =>
        rw [GetNextTask_eq_no_task ha hidle hfe]
        exact hs
      | some tid =>
        rw [GetNextTask_eq_success ha hidle hfe]
        obtain ⟨ha_mem, haid⟩ := findAgent_some ha
        obtain ⟨q1, q2, hsplit, ⟨t, hft, helig⟩, -⟩ := firstEligible_eq_some hfe
        have hq_mem : tid ∈ s.pendingQueue := by
          rw [hsplit]
          exact List.mem_append_right _ (List.mem_cons_self _ _)
        obtain ⟨t', hft', hpend⟩ := hs.queue_find hq_mem
        rw [hft] at hft'
        obtain rfl : t = t' := Option.some_inj.mp hft'
        obtain ⟨ht_mem, htid⟩ := findTask_some hft
        refine ⟨?_, ?_, ?_, ?_, ?_, ?_, ?_, ?_⟩
        · show (List.map Task.task_id (updateTask tid (assignTask aid now) s.tasks)).Nodup
          rw [map_task_id_updateTask (assignTask_task_id aid now)]
          exact hs.tasks_nodup
        · show (List.map Agent.agent_id (updateAgent aid (busyAgent tid) s.agents)).Nodup
          rw [map_agent_id_updateAgent (busyAgent_agent_id tid)]
          exact hs.agents_nodup
        · intro u' hu'
          rcases mem_updateTask.mp hu' with ⟨u, hu, rfl⟩
          have hlt := hs.tasks_lt u hu
          by_cases hc : u.task_id = tid
          · simpa [hc, assignTask] using hlt
          · simpa [hc] using hlt
        · intro b' hb'
          rcases mem_updateAgent.mp hb' with ⟨b, hb, rfl⟩
          have hlt := hs.agents_lt b hb
          by_cases hc : b.agent_id = aid
          · simpa [hc, busyAgent] using hlt
          · simpa [hc] using hlt
        · intro tid'
          simp only [List.mem_filter, decide_eq_true_eq]
          constructor
          · rintro ⟨hq', hne⟩
            rcases (hs.queue_mem tid').mp hq' with ⟨u, hu, hid, hp⟩
            refine ⟨u, mem_updateTask.mpr ⟨u, hu, ?_⟩, hid, hp⟩
            rw [if_neg (by rw [hid]; exact hne)]
          · rintro ⟨u', hu', hid', hp'⟩
            rcases mem_updateTask.mp hu' with ⟨u, hu, rfl⟩
            by_cases hc : u.task_id = tid
            · rw [if_pos hc] at hp'
              simp [assignTask] at hp'
            · rw [if_neg hc] at hid' hp'
              refine ⟨(hs.queue_mem tid').mpr ⟨u, hu, hid', hp'⟩, ?_⟩
              rw [← hid']
              exact hc
        · exact pairwise_queue_updateTask (assignTask_task_id aid now)
            (assignTask_priority aid now)
            (hs.queue_sorted.sublist (List.filter_sublist _))
        · intro b' hb'
          rcases mem_updateAgent.mp hb' with ⟨b, hb, rfl⟩
          by_cases hc : b.agent_id = aid
          · obtain rfl : b = a := agent_id_inj hs.agents_nodup hb ha_mem (hc.trans haid.symm)
            simp only [if_pos hc]
            refine ⟨by simp [busyAgent], ?_⟩
            intro tid2 htid2
            simp only [busyAgent] at htid2
            obtain rfl : tid = tid2 := by simpa using htid2
            refine ⟨assignTask aid now t,
              mem_updateTask.mpr ⟨t, ht_mem, (if_pos htid).symm⟩, htid, rfl, ?_⟩
            simp [assignTask, busyAgent, haid]
          · simp only [if_neg hc]
            obtain ⟨hbusy, hlink⟩ := hs.agent_link b hb
            refine ⟨hbusy, ?_⟩
            intro tid2 htid2
            obtain ⟨u, hu, hid2, hst, hass⟩ := hlink tid2 htid2
            have hune : u.task_id ≠ tid := by
              intro he
              have heq : u = t := task_id_inj hs.tasks_nodup hu ht_mem (he.trans htid.symm)
              rw [heq, hpend] at hst
              cases hst
            exact ⟨u, mem_updateTask.mpr ⟨u, hu, (if_neg hune).symm⟩, hid2, hst, hass⟩
        · intro u' hu'
          rcases mem_updateTask.mp hu' with ⟨u, hu, rfl⟩
          by_cases hc : u.task_id = tid
          · obtain rfl : u = t := task_id_inj hs.tasks_nodup hu ht_mem (hc.trans htid.symm)
            have hres : u.result = none := by
              have h1 := (hs.task_inv u hu).2
              rw [hpend] at h1
              simp at h1
              exact h1
            simp [if_pos hc, assignTask, hres]
          · simp only [if_neg hc]
            exact hs.task_inv u hu
    · rw [GetNextTask_eq_not_idle ha hidle]
      exact hs

theorem inv_finish {s : CoordState} (hs : Inv s) {aid tid now : Nat} {a : Agent}
    {t : Task} (endState : TaskState) (res : String)
    (hend : endState = TaskState.Completed ∨ endState = TaskState.Failed)
    (ha : findAgent s.agents aid = some a) (hct : a.current_task = some tid)
    (hft : findTask s.tasks tid = some t) :
    Inv { s with
      tasks := updateTask tid (finishTask endState res now) s.tasks,
      agents := updateAgent aid (idleAgent now) s.agents } := by
  obtain ⟨ha_mem, haid⟩ := findAgent_some ha
  obtain ⟨hbusy, hlink⟩ := hs.agent_link a ha_mem
  obtain ⟨u0, hu0, hid0, hAss0, hassag0⟩ := hlink tid hct
  have hfu0 : findTask s.tasks tid = some u0 := by
    rw [← hid0]
    exact findTask_of_mem_nodup hs.tasks_nodup hu0
  rw [hft] at hfu0
  obtain rfl : t = u0 := Option.some_inj.mp hfu0
  obtain ⟨ht_mem, htid⟩ := findTask_some hft
  have hAss : t.state = TaskState.Assigned := hAss0
  have hassag : t.assigned_agent = some a.agent_id := hassag0
  have htid_notq : tid ∉ s.pendingQueue := by
    rw [← htid]
    exact hs.not_pending_not_mem ht_mem (by rw [hAss]; intro h; cases h)
  refine ⟨?_, ?_, ?_, ?_, ?_, ?_, ?_, ?_⟩
  · show (List.map Task.task_id (updateTask tid (finishTask endState res now) s.tasks)).Nodup
    rw [map_task_id_updateTask (finishTask_task_id endState res now)]
    exact hs.tasks_nodup
  · show (List.map Agent.agent_id (updateAgent aid (idleAgent now) s.agents)).Nodup
    rw [map_agent_id_updateAgent (idleAgent_agent_id now)]
    exact hs.agents_nodup
  · intro u' hu'
    rcases mem_updateTask.mp hu' with ⟨u, hu, rfl⟩
    have hlt := hs.tasks_lt u hu
    by_cases hc : u.task_id = tid
    · simpa [hc, finishTask] using hlt
    · simpa [hc] using hlt
  · intro b' hb'
    rcases mem_updateAgent.mp hb' with ⟨b, hb, rfl⟩
    have hlt := hs.agents_lt b hb
    by_cases hc : b.agent_id = aid
    · simpa [hc, idleAgent] using hlt
    · simpa [hc] using hlt
  · intro tid'
    constructor
    · intro hq'
      have hne : tid' ≠ tid := by
        intro he
        rw [he] at hq'
        exact htid_notq hq'
      rcases (hs.queue_mem tid').mp hq' with ⟨u, hu, hid, hp⟩
      refine ⟨u, mem_updateTask.mpr ⟨u, hu, ?_⟩, hid, hp⟩
      rw [if_neg (by rw [hid]; exact hne)]
    · rintro ⟨u2', hu2', hid2', hp2'⟩
      rcases mem_updateTask.mp hu2' with ⟨u2, hu2, rfl⟩
      by_cases hc : u2.task_id = tid
      · rw [if_pos hc] at hp2'
        rcases hend with rfl | rfl <;> simp [finishTask] at hp2'
      · rw [if_neg hc] at hid2' hp2'
        exact (hs.queue_mem tid').mpr ⟨u2, hu2, hid2', hp2'⟩
  · exact pairwise_queue_updateTask (finishTask_task_id endState res now)
      (finishTask_priority endState res now) hs.queue_sorted
  · intro b' hb'
    rcases mem_updateAgent.mp hb' with ⟨b, hb, rfl⟩
    by_cases hc : b.agent_id = aid
    · simp only [if_pos hc]
      refine ⟨by simp [idleAgent], ?_⟩
      intro tid2 htid2
      simp [idleAgent] at htid2
    · simp only [if_neg hc]
      obtain ⟨hbusy_b, hlink_b⟩ := hs.agent_link b hb
      refine ⟨hbusy_b, ?_⟩
      intro tid2 htid2
      obtain ⟨u2, hu2, hid2, hst2, hass2⟩ := hlink_b tid2 htid2
      have hune : u2.task_id ≠ tid := by
        intro he
        have heq : u2 = t := task_id_inj hs.tasks_nodup hu2 ht_mem (he.trans htid.symm)
        rw [heq] at hass2
        rw [hassag] at hass2
        have : a.agent_id = b.agent_id := by simpa using hass2
        exact hc ((this.symm).trans haid)
      exact ⟨u2, mem_updateTask.mpr ⟨u2, hu2, (if_neg hune).symm⟩, hid2, hst2, hass2⟩
  · intro u' hu'
    rcases mem_updateTask.mp hu' with ⟨u, hu, rfl⟩
    by_cases hc : u.task_id = tid
    · obtain rfl : u = t := task_id_inj hs.tasks_nodup hu ht_mem (hc.trans htid.symm)
      rw [if_pos hc]
      rcases hend with rfl | rfl <;> simp [finishTask]
    · rw [if_neg hc]
      exact hs.task_inv u hu

theorem inv_complete {s : CoordState} (hs : Inv s) (aid : Nat) (res : String)
    (now : Nat) : Inv (CompleteTask aid res now s).2 := by
  cases ha : findAgent s.agents aid with
  | none =>
    rw [CompleteTask_eq_notfound ha]
    exact hs
  | some a =>
    cases hct : a.current_task with
    | none =>
      rw [CompleteTask_eq_noactive ha hct]
      exact hs
    | some tid =>
      cases hft : findTask s.tasks tid with
      | none =>
        rw [CompleteTask_eq_task_missing ha hct hft]
        exact hs
      | some t =>
        by_cases hst : t.state = TaskState.Assigned
        · rw [CompleteTask_eq_success ha hct hft hst]
          exact inv_finish hs TaskState.Completed res (Or.inl rfl) ha hct hft
        · rw [CompleteTask_eq_invalid ha hct hft hst]
          exact hs

theorem inv_fail {s : CoordState} (hs : Inv s) (aid : Nat) (reason : String)
    (now : Nat) : Inv (FailTask aid reason now s).2 := by
  cases ha : findAgent s.agents aid with
  | none =>
    rw [FailTask_eq_notfound ha]
    exact hs
  | some a =>
    cases hct : a.current_task with
    | none =>
      rw [FailTask_eq_noactive ha hct]
      exact hs
    | some tid =>
      cases hft : findTask s.tasks tid with
      | none =>
        rw [FailTask_eq_task_missing ha hct hft]
        exact hs
      | some t =>
        by_cases hst : t.state = TaskState.Assigned
        · rw [FailTask_eq_success ha hct hft hst]
          exact inv_finish hs TaskState.Failed reason (Or.inr rfl) ha hct hft
        · rw [FailTask_eq_invalid ha hct hft hst]
          exact hs

theorem inv_heartbeat {s : CoordState} (hs : Inv s) (aid now : Nat) :
    Inv (Heartbeat aid now s).2 := by
  cases ha : findAgent s.agents aid with
  | none =>
    rw [Heartbeat_eq_notfound ha]
    exact hs
  | some a =>
    rw [Heartbeat_eq_ok ha]
    refine ⟨hs.tasks_nodup, ?_, hs.tasks_lt, ?_, hs.queue_mem, hs.queue_sorted, ?_,
      hs.task_inv⟩
    · show (List.map Agent.agent_id (updateAgent aid (touchAgent now) s.agents)).Nodup
      rw [map_agent_id_updateAgent (touchAgent_agent_id now)]
      exact hs.agents_nodup
    · intro b' hb'
      rcases mem_updateAgent.mp hb' with ⟨b, hb, rfl⟩
      have hlt := hs.agents_lt b hb
      by_cases hc : b.agent_id = aid
      · simpa [hc, touchAgent] using hlt
      · simpa [hc] using hlt
    · intro b' hb'
      rcases mem_updateAgent.mp hb' with ⟨b, hb, rfl⟩
      obtain ⟨hbusy, hlink⟩ := hs.agent_link b hb
      by_cases hc : b.agent_id = aid
      · simp only [if_pos hc]
        refine ⟨by simpa [touchAgent] using hbusy, ?_⟩
        intro tid htid
        simp only [touchAgent] at htid
        exact hlink tid htid
      · simp only [if_neg hc]
        exact ⟨hbusy, hlink⟩

theorem inv_sweep {s : CoordState} (hs : Inv s) (aid now threshold : Nat) :
    Inv (SweepAgent aid now threshold s) := by
  cases ha : findAgent s.agents aid with
  | none =>
    rw [SweepAgent_eq_notfound ha]
    exact hs
  | some a =>
    by_cases hstale : threshold < now - a.last_heartbeat
    · obtain ⟨ha_mem, haid⟩ := findAgent_some ha
      cases hct : a.current_task with
      | none =>
        rw [SweepAgent_eq_no_task ha hstale hct]
        refine ⟨hs.tasks_nodup, ?_, hs.tasks_lt, ?_, hs.queue_mem, hs.queue_sorted, ?_,
          hs.task_inv⟩
        · show (List.map Agent.agent_id (updateAgent aid offlineAgent s.agents)).Nodup
          rw [map_agent_id_updateAgent offlineAgent_agent_id]
          exact hs.agents_nodup
        · intro b' hb'
          rcases mem_updateAgent.mp hb' with ⟨b, hb, rfl⟩
          have hlt := hs.agents_lt b hb
          by_cases hc : b.agent_id = aid
          · simpa [hc, offlineAgent] using hlt
          · simpa [hc] using hlt
        · intro b' hb'
          rcases mem_updateAgent.mp hb' with ⟨b, hb, rfl⟩
          by_cases hc : b.agent_id = aid
          · obtain rfl : b = a := agent_id_inj hs.agents_nodup hb ha_mem
              (hc.trans haid.symm)
            simp only [if_pos hc]
            refine ⟨by simp [offlineAgent, hct], ?_⟩
            intro tid htid
            rw [show (offlineAgent b).current_task = b.current_task from rfl, hct] at htid
            cases htid
          · simp only [if_neg hc]
            exact hs.agent_link b hb
      | some tid =>
        rw [SweepAgent_eq_requeue ha hstale hct]
        obtain ⟨hbusy, hlink⟩ := hs.agent_link a ha_mem
        obtain ⟨t, ht_mem, htid, hAss, hassag⟩ := hlink tid hct
        have hft : findTask s.tasks tid = some t := by
          rw [← htid]
          exact findTask_of_mem_nodup hs.tasks_nodup ht_mem
        have htid_notq : tid ∉ s.pendingQueue := by
          rw [← htid]
          exact hs.not_pending_not_mem ht_mem (by rw [hAss]; intro h; cases h)
        refine ⟨?_, ?_, ?_, ?_, ?_, ?_, ?_, ?_⟩
        · show (List.map Task.task_id (updateTask tid requeueTask s.tasks)).Nodup
          rw [map_task_id_updateTask requeueTask_task_id]
          exact hs.tasks_nodup
        · show (List.map Agent.agent_id (updateAgent aid offlineClearAgent s.agents)).Nodup
          rw [map_agent_id_updateAgent offlineClearAgent_agent_id]
          exact hs.agents_nodup
        · intro u' hu'
          rcases mem_updateTask.mp hu' with ⟨u, hu, rfl⟩
          have hlt := hs.tasks_lt u hu
          by_cases hc : u.task_id = tid
          · simpa [hc, requeueTask] using hlt
          · simpa [hc] using hlt
        · intro b' hb'
          rcases mem_updateAgent.mp hb' with ⟨b, hb, rfl⟩
          have hlt := hs.agents_lt b hb
          by_cases hc : b.agent_id = aid
          · simpa [hc, offlineClearAgent] using hlt
          · simpa [hc] using hlt
        · intro tid'
          show tid' ∈ insertQueue (updateTask tid requeueTask s.tasks) tid s.pendingQueue ↔
            ∃ u ∈ updateTask tid requeueTask s.tasks,
              u.task_id = tid' ∧ u.state = TaskState.Pending
          rw [insertQueue, mem_insertOrd]
          constructor
          · rintro (rfl | hq)
            · exact ⟨requeueTask t, mem_updateTask.mpr ⟨t, ht_mem, (if_pos htid).symm⟩,
                htid, rfl⟩
            · have hne : tid' ≠ tid := by
                intro he
                rw [he] at hq
                exact htid_notq hq
              rcases (hs.queue_mem tid').mp hq with ⟨u, hu, hid, hp⟩
              refine ⟨u, mem_updateTask.mpr ⟨u, hu, ?_⟩, hid, hp⟩
              rw [if_neg (by rw [hid]; exact hne)]
          · rintro ⟨u2', hu2', hid2', hp2'⟩
            rcases mem_updateTask.mp hu2' with ⟨u2, hu2, rfl⟩
            by_cases hc : u2.task_id = tid
            · rw [if_pos hc] at hid2'
              refine Or.inl ?_
              rw [← hid2']
              exact (requeueTask_task_id u2).trans hc
            · rw [if_neg hc] at hid2' hp2'
              exact Or.inr ((hs.queue_mem tid').mpr ⟨u2, hu2, hid2', hp2'⟩)
        · show (insertQueue (updateTask tid requeueTask s.tasks) tid
            s.pendingQueue).Pairwise (QBefore (updateTask tid requeueTask s.tasks))
          rw [insertQueue]
          apply pairwise_insertOrd
          · exact pairwise_queue_updateTask requeueTask_task_id requeueTask_priority
              hs.queue_sorted
          · intro x hx
            have hxne : x ≠ tid := by
              intro he
              rw [he] at hx
              exact htid_notq hx
            rcases hs.queue_find hx with ⟨tx, htx, -⟩
            have h1 : findTask (updateTask tid requeueTask s.tasks) x = some tx := by
              rw [findTask_updateTask_ne requeueTask_task_id hxne]
              exact htx
            have h2 : findTask (updateTask tid requeueTask s.tasks) tid =
                some (requeueTask t) := by
              rw [findTask_updateTask_self requeueTask_task_id, hft]
              rfl
            have hidne : (requeueTask t).task_id ≠ tx.task_id := by
              rw [requeueTask_task_id, htid, (findTask_some htx).2]
              exact fun he => hxne he.symm
            rcases keyLt_total hidne with h | h
            · exact Or.inl (queueBefore_iff.mpr ⟨requeueTask t, tx, h2, h1, h⟩)
            · exact Or.inr (queueBefore_iff.mpr ⟨tx, requeueTask t, h1, h2, h⟩)
          · intro x _ y _ h1 h2
            exact queueBefore_trans h1 h2
        · intro b' hb'
          rcases mem_updateAgent.mp hb' with ⟨b, hb, rfl⟩
          by_cases hc : b.agent_id = aid
          · simp only [if_pos hc]
            refine ⟨by simp [offlineClearAgent], ?_⟩
            intro tid2 htid2
            simp [offlineClearAgent] at htid2
          · simp only [if_neg hc]
            obtain ⟨hbusy_b, hlink_b⟩ := hs.agent_link b hb
            refine ⟨hbusy_b, ?_⟩
            intro tid2 htid2
            obtain ⟨u2, hu2, hid2, hst2, hass2⟩ := hlink_b tid2 htid2
            have hune : u2.task_id ≠ tid := by
              intro he
              have heq : u2 = t := task_id_inj hs.tasks_nodup hu2 ht_mem
                (he.trans htid.symm)
              rw [heq] at hass2
              rw [hassag] at hass2
              have h3 : a.agent_id = b.agent_id := by simpa using hass2
              exact hc ((h3.symm).trans haid)
            exact ⟨u2, mem_updateTask.mpr ⟨u2, hu2, (if_neg hune).symm⟩, hid2, hst2,
              hass2⟩
        · intro u' hu'
          rcases mem_updateTask.mp hu' with ⟨u, hu, rfl⟩
          by_cases hc : u.task_id = tid
          · obtain rfl : u = t := task_id_inj hs.tasks_nodup hu ht_mem
              (hc.trans htid.symm)
            have hres : u.result = none := by
              have h1 := (hs.task_inv u hu).2
              rw [hAss] at h1
              simp at h1
              exact h1
            rw [if_pos hc]
            simp [requeueTask, hres]
          · rw [if_neg hc]
            exact hs.task_inv u hu
    · rw [SweepAgent_eq_fresh ha hstale]
      exact hs

theorem inv_init : Inv initState := by
  refine ⟨?_, ?_, ?_, ?_, ?_, ?_, ?_, ?_⟩ <;> simp [initState]

theorem reachable_inv {s : CoordState} (h : Reachable s) : Inv s := by
  induction h with
  | init => exact inv_init
  | step op hs ih =>
    cases op with
    | register name caps now => exact inv_register ih name caps now
    | create title description priority reqCaps now =>
      exact inv_create ih title description priority reqCaps now
    | getNext aid now => exact inv_getNext ih aid now
    | complete aid result now => exact inv_complete ih aid result now
    | fail aid reason now => exact inv_fail ih aid reason now
    | heartbeat aid now => exact inv_heartbeat ih aid now
    | sweep aid now threshold => exact inv_sweep ih aid now threshold

theorem reachable_applyOps (ops : List Op) {s : CoordState} (h : Reachable s) :
    Reachable (applyOps ops s) := by
  induction ops generalizing s with
  | nil => exact h
  | cons op rest ih => exact ih (Reachable.step op h)

/-! ### Shared scheduling facts -/

theorem Eligible_iff {req caps : List String} :
    Eligible req caps = true ↔ ∀ c ∈ req, c ∈ caps := by
  simp [Eligible, List.all_eq_true]

theorem getNextTask_some_inv {s s' : CoordState} {aid now tid : Nat}
    (h : GetNextTask aid now s = (some tid, s')) :
    ∃ a, findAgent s.agents aid = some a ∧ a.status = AgentStatus.Idle ∧
      firstEligible s.tasks a.capabilities s.pendingQueue = some tid ∧
      s' = { s with
        tasks := updateTask tid (assignTask aid now) s.tasks,
        agents := updateAgent aid (busyAgent tid) s.agents,
        pendingQueue := s.pendingQueue.filter (fun x => x ≠ tid) } := by
  cases ha : findAgent s.agents aid with
  | none =>
    rw [GetNextTask_eq_none_agent ha] at h
    simp at h
  | some a =>
    by_cases hidle : a.status = AgentStatus.Idle
    · cases hfe : firstEligible s.tasks a.capabilities s.pendingQueue with
      | none =>
        rw [GetNextTask_eq_no_task ha hidle hfe] at h
        simp at h
      | some tid0 =>
        rw [GetNextTask_eq_success ha hidle hfe] at h
        have h1 : some tid0 = some tid := congrArg Prod.fst h
        have h2 := congrArg Prod.snd h
        obtain rfl : tid0 = tid := Option.some_inj.mp h1
        exact ⟨a, rfl, hidle, hfe, h2.symm⟩
    · rw [GetNextTask_eq_not_idle ha hidle] at h
      simp at h

theorem getNextTask_some_pending {s s' : CoordState} (hs : Inv s) {aid now tid : Nat}
    (h : GetNextTask aid now s = (some tid, s')) :
    ∃ t, findTask s.tasks tid = some t ∧ t.state = TaskState.Pending ∧
      ∃ a, findAgent s.agents aid = some a ∧
        Eligible t.required_capabilities a.capabilities = true := by
  obtain ⟨a, ha, hidle, hfe, -⟩ := getNextTask_some_inv h
  obtain ⟨q1, q2, hsplit, ⟨t, hft, helig⟩, -⟩ := firstEligible_eq_some hfe
  have hq_mem : tid ∈ s.pendingQueue := by
    rw [hsplit]
    exact List.mem_append_right _ (List.mem_cons_self _ _)
  obtain ⟨t', hft', hpend⟩ := hs.queue_find hq_mem
  rw [hft] at hft'
  obtain rfl : t = t' := Option.some_inj.mp hft'
  exact ⟨t, hft, hpend, a, ha, helig⟩

/-! ### Single-step task transition analysis -/

theorem step_task_trans (op : Op) {s : CoordState} (hs : Inv s) {tid : Nat}
    {t t' : Task} (h : findTask s.tasks tid = some t)
    (h' : findTask (applyOp op s).tasks tid = some t') :
    TaskTransOK t.state t'.state op := by
  cases op with
  | register name caps now =>
    have he : findTask s.tasks tid = some t' := h'
    rw [h] at he
    obtain rfl : t = t' := Option.some_inj.mp he
    exact Or.inl rfl
  | create title description priority reqCaps now =>
    have h2 : findTask (applyOp (Op.create title description priority reqCaps now)
        s).tasks tid = some t := findTask_append_left h
    rw [h2] at h'
    obtain rfl : t = t' := Option.some_inj.mp h'
    exact Or.inl rfl
  | getNext aid now =>
    cases ha : findAgent s.agents aid with
    | none =>
      rw [show applyOp (Op.getNext aid now) s = (GetNextTask aid now s).2 from rfl,
        GetNextTask_eq_none_agent ha] at h'
      have he : findTask s.tasks tid = some t' := h'
      rw [h] at he
      obtain rfl : t = t' := Option.some_inj.mp he
      exact Or.inl rfl
    | some a =>
      by_cases hidle : a.status = AgentStatus.Idle
      · cases hfe : firstEligible s.tasks a.capabilities s.pendingQueue with
        | none =>
          rw [show applyOp (Op.getNext aid now) s = (GetNextTask aid now s).2 from rfl,
            GetNextTask_eq_no_task ha hidle hfe] at h'
          have he : findTask s.tasks tid = some t' := h'
          rw [h] at he
          obtain rfl : t = t' := Option.some_inj.mp he
          exact Or.inl rfl
        | some tid0 =>
          have hgns : GetNextTask aid now s = (some tid0,
              { s with
                tasks := updateTask tid0 (assignTask aid now) s.tasks,
                agents := updateAgent aid (busyAgent tid0) s.agents,
                pendingQueue := s.pendingQueue.filter (fun x => x ≠ tid0) }) :=
            GetNextTask_eq_success ha hidle hfe
          have h2 : findTask (updateTask tid0 (assignTask aid now) s.tasks) tid =
              some t' := by
            rw [show applyOp (Op.getNext aid now) s = (GetNextTask aid now s).2 from rfl,
              hgns] at h'
            exact h'
          obtain ⟨t0, hft0, hpend0, -⟩ :=
            getNextTask_some_pending hs hgns
          by_cases hc : tid = tid0
          · subst hc
            rw [findTask_updateTask_self (assignTask_task_id aid now), h] at h2
            have ht0 : t0 = t := by
              rw [h] at hft0
              exact (Option.some_inj.mp hft0).symm
            obtain rfl : assignTask aid now t = t' := by
              simpa using h2
            refine Or.inr (Or.inl ⟨?_, rfl⟩)
            rw [← ht0]
            exact hpend0
          · rw [findTask_updateTask_ne (assignTask_task_id aid now) hc, h] at h2
            obtain rfl : t = t' := Option.some_inj.mp h2
            exact Or.inl rfl
      · rw [show applyOp (Op.getNext aid now) s = (GetNextTask aid now s).2 from rfl,
          GetNextTask_eq_not_idle ha hidle] at h'
        have he : findTask s.tasks tid = some t' := h'
        rw [h] at he
        obtain rfl : t = t' := Option.some_inj.mp he
        exact Or.inl rfl
  | complete aid res now =>
    cases ha : findAgent s.agents aid with
    | none =>
      rw [show applyOp (Op.complete aid res now) s = (CompleteTask aid res now s).2
        from rfl, CompleteTask_eq_notfound ha] at h'
      have he : findTask s.tasks tid = some t' := h'
      rw [h] at he
      obtain rfl : t = t' := Option.some_inj.mp he
      exact Or.inl rfl
    | some a =>
      cases hct : a.current_task with
      | none =>
        rw [show applyOp (Op.complete aid res now) s = (CompleteTask aid res now s).2
          from rfl, CompleteTask_eq_noactive ha hct] at h'
        have he : findTask s.tasks tid = some t' := h'
        rw [h] at he
        obtain rfl : t = t' := Option.some_inj.mp he
        exact Or.inl rfl
      | some tid0 =>
        cases hft0 : findTask s.tasks tid0 with
        | none =>
          rw [show applyOp (Op.complete aid res now) s = (CompleteTask aid res now s).2
            from rfl, CompleteTask_eq_task_missing ha hct hft0] at h'
          have he : findTask s.tasks tid = some t' := h'
          rw [h] at he
          obtain rfl : t = t' := Option.some_inj.mp he
          exact Or.inl rfl
        | some t0 =>
          by_cases hst : t0.state = TaskState.Assigned
          · have h2 : findTask (updateTask tid0 (finishTask .Completed res now)
                s.tasks) tid = some t' := by
              rw [show applyOp (Op.complete aid res now) s =
                (CompleteTask aid res now s).2 from rfl,
                CompleteTask_eq_success ha hct hft0 hst] at h'
              exact h'
            by_cases hc : tid = tid0
            · subst hc
              rw [findTask_updateTask_self (finishTask_task_id .Completed res now),
                h] at h2
              have ht0 : t0 = t := by
                rw [h] at hft0
                exact (Option.some_inj.mp hft0).symm
              obtain rfl : finishTask .Completed res now t = t' := by
                simpa using h2
              refine Or.inr (Or.inr (Or.inl ⟨?_, Or.inl rfl⟩))
              rw [← ht0]
              exact hst
            · rw [findTask_updateTask_ne (finishTask_task_id .Completed res now) hc,
                h] at h2
              obtain rfl : t = t' := Option.some_inj.mp h2
              exact Or.inl rfl
          · rw [show applyOp (Op.complete aid res now) s =
              (CompleteTask aid res now s).2 from rfl,
              CompleteTask_eq_invalid ha hct hft0 hst] at h'
            have he : findTask s.tasks tid = some t' := h'
            rw [h] at he
            obtain rfl : t = t' := Option.some_inj.mp he
            exact Or.inl rfl
  | fail aid reason now =>
    cases ha : findAgent s.agents aid with
    | none =>
      rw [show applyOp (Op.fail aid reason now) s = (FailTask aid reason now s).2
        from rfl, FailTask_eq_notfound ha] at h'
      have he : findTask s.tasks tid = some t' := h'
      rw [h] at he
      obtain rfl : t = t' := Option.some_inj.mp he
      exact Or.inl rfl
    | some a =>
      cases hct : a.current_task with
      | none =>
        rw [show applyOp (Op.fail aid reason now) s = (FailTask aid reason now s).2
          from rfl, FailTask_eq_noactive ha hct] at h'
        have he : findTask s.tasks tid = some t' := h'
        rw [h] at he
        obtain rfl : t = t' := Option.some_inj.mp he
        exact Or.inl rfl
      | some tid0 =>
        cases hft0 : findTask s.tasks tid0 with
        | none =>
          rw [show applyOp (Op.fail aid reason now) s = (FailTask aid reason now s).2
            from rfl, FailTask_eq_task_missing ha hct hft0] at h'
          have he : findTask s.tasks tid = some t' := h'
          rw [h] at he
          obtain rfl : t = t' := Option.some_inj.mp he
          exact Or.inl rfl
        | some t0 =>
          by_cases hst : t0.state = TaskState.Assigned
          · have h2 : findTask (updateTask tid0 (finishTask .Failed reason now)
                s.tasks) tid = some t' := by
              rw [show applyOp (Op.fail aid reason now) s =
                (FailTask aid reason now s).2 from rfl,
                FailTask_eq_success ha hct hft0 hst] at h'
              exact h'
            by_cases hc : tid = tid0
            · subst hc
              rw [findTask_updateTask_self (finishTask_task_id .Failed reason now),
                h] at h2
              have ht0 : t0 = t := by
                rw [h] at hft0
                exact (Option.some_inj.mp hft0).symm
              obtain rfl : finishTask .Failed reason now t = t' := by
                simpa using h2
              refine Or.inr (Or.inr (Or.inl ⟨?_, Or.inr rfl⟩))
              rw [← ht0]
              exact hst
            · rw [findTask_updateTask_ne (finishTask_task_id .Failed reason now) hc,
                h] at h2
              obtain rfl : t = t' := Option.some_inj.mp h2
              exact Or.inl rfl
          · rw [show applyOp (Op.fail aid reason now) s =
              (FailTask aid reason now s).2 from rfl,
              FailTask_eq_invalid ha hct hft0 hst] at h'
            have he : findTask s.tasks tid = some t' := h'
            rw [h] at he
            obtain rfl : t = t' := Option.some_inj.mp he
            exact Or.inl rfl
  | heartbeat aid now =>
    cases ha : findAgent s.agents aid with
    | none =>
      rw [show applyOp (Op.heartbeat aid now) s = (Heartbeat aid now s).2 from rfl,
        Heartbeat_eq_notfound ha] at h'
      have he : findTask s.tasks tid = some t' := h'
      rw [h] at he
      obtain rfl : t = t' := Option.some_inj.mp he
      exact Or.inl rfl
    | some a =>
      rw [show applyOp (Op.heartbeat aid now) s = (Heartbeat aid now s).2 from rfl,
        Heartbeat_eq_ok ha] at h'
      have he : findTask s.tasks tid = some t' := h'
      rw [h] at he
      obtain rfl : t = t' := Option.some_inj.mp he
      exact Or.inl rfl
  | sweep aid now threshold =>
    cases ha : findAgent s.agents aid with
    | none =>
      rw [show applyOp (Op.sweep aid now threshold) s = SweepAgent aid now threshold s
        from rfl, SweepAgent_eq_notfound ha] at h'
      rw [h] at h'
      obtain rfl : t = t' := Option.some_inj.mp h'
      exact Or.inl rfl
    | some a =>
      by_cases hstale : threshold < now - a.last_heartbeat
      · cases hct : a.current_task with
        | none =>
          rw [show applyOp (Op.sweep aid now threshold) s =
            SweepAgent aid now threshold s from rfl,
            SweepAgent_eq_no_task ha hstale hct] at h'
          have he : findTask s.tasks tid = some t' := h'
          rw [h] at he
          obtain rfl : t = t' := Option.some_inj.mp he
          exact Or.inl rfl
        | some tid0 =>
          obtain ⟨ha_mem, haid⟩ := findAgent_some ha
          obtain ⟨-, hlink⟩ := hs.agent_link a ha_mem
          obtain ⟨t0, ht0_mem, htid0, hAss0, -⟩ := hlink tid0 hct
          have hft0 : findTask s.tasks tid0 = some t0 := by
            rw [← htid0]
            exact findTask_of_mem_nodup hs.tasks_nodup ht0_mem
          have h2 : findTask (updateTask tid0 requeueTask s.tasks) tid = some t' := by
            rw [show applyOp (Op.sweep aid now threshold) s =
              SweepAgent aid now threshold s from rfl,
              SweepAgent_eq_requeue ha hstale hct] at h'
            exact h'
          by_cases hc : tid = tid0
          · subst hc
            rw [findTask_updateTask_self requeueTask_task_id, h] at h2
            have ht0 : t0 = t := by
              rw [h] at hft0
              exact (Option.some_inj.mp hft0).symm
            obtain rfl : requeueTask t = t' := by
              simpa using h2
            refine Or.inr (Or.inr (Or.inr ⟨?_, rfl, rfl⟩))
            rw [← ht0]
            exact hAss0
          · rw [findTask_updateTask_ne requeueTask_task_id hc, h] at h2
            obtain rfl : t = t' := Option.some_inj.mp h2
            exact Or.inl rfl
      · rw [show applyOp (Op.sweep aid now threshold) s = SweepAgent aid now threshold s
          from rfl, SweepAgent_eq_fresh ha hstale] at h'
        rw [h] at h'
        obtain rfl : t = t' := Option.some_inj.mp h'
        exact Or.inl rfl

theorem step_terminal (op : Op) {s : CoordState} (hs : Inv s) {tid : Nat} {t : Task}
    (h : findTask s.tasks tid = some t)
    (hterm : t.state = TaskState.Completed ∨ t.state = TaskState.Failed) :
    findTask (applyOp op s).tasks tid = some t := by
  have hterm_ne_pending : t.state ≠ TaskState.Pending := by
    rcases hterm with h1 | h1 <;> rw [h1] <;> intro h2 <;> cases h2
  have hterm_ne_assigned : t.state ≠ TaskState.Assigned := by
    rcases hterm with h1 | h1 <;> rw [h1] <;> intro h2 <;> cases h2
  cases op with
  | register name caps now => exact h
  | create title description priority reqCaps now => exact findTask_append_left h
  | getNext aid now =>
    cases ha : findAgent s.agents aid with
    | none =>
      rw [show applyOp (Op.getNext aid now) s = (GetNextTask aid now s).2 from rfl,
        GetNextTask_eq_none_agent ha]
      exact h
    | some a =>
      by_cases hidle : a.status = AgentStatus.Idle
      · cases hfe : firstEligible s.tasks a.capabilities s.pendingQueue with
        | none =>
          rw [show applyOp (Op.getNext aid now) s = (GetNextTask aid now s).2 from rfl,
            GetNextTask_eq_no_task ha hidle hfe]
          exact h
        | some tid0 =>
          have hgns : GetNextTask aid now s = (some tid0,
              { s with
                tasks := updateTask tid0 (assignTask aid now) s.tasks,
                agents := updateAgent aid (busyAgent tid0) s.agents,
                pendingQueue := s.pendingQueue.filter (fun x => x ≠ tid0) }) :=
            GetNextTask_eq_success ha hidle hfe
          obtain ⟨t0, hft0, hpend0, -⟩ := getNextTask_some_pending hs hgns
          have hne : tid ≠ tid0 := by
            intro he
            subst he
            rw [h] at hft0
            obtain rfl : t = t0 := Option.some_inj.mp hft0
            exact hterm_ne_pending hpend0
          rw [show applyOp (Op.getNext aid now) s = (GetNextTask aid now s).2 from rfl,
            hgns]
          show findTask (updateTask tid0 (assignTask aid now) s.tasks) tid = some t
          rw [findTask_updateTask_ne (assignTask_task_id aid now) hne]
          exact h
      · rw [show applyOp (Op.getNext aid now) s = (GetNextTask aid now s).2 from rfl,
          GetNextTask_eq_not_idle ha hidle]
        exact h
  | complete aid res now =>
    cases ha : findAgent s.agents aid with
    | none =>
      rw [show applyOp (Op.complete aid res now) s = (CompleteTask aid res now s).2
        from rfl, CompleteTask_eq_notfound ha]
      exact h
    | some a =>
      cases hct : a.current_task with
      | none =>
        rw [show applyOp (Op.complete aid res now) s = (CompleteTask aid res now s).2
          from rfl, CompleteTask_eq_noactive ha hct]
        exact h
      | some tid0 =>
        cases hft0 : findTask s.tasks tid0 with
        | none =>
          rw [show applyOp (Op.complete aid res now) s = (CompleteTask aid res now s).2
            from rfl, CompleteTask_eq_task_missing ha hct hft0]
          exact h
        | some t0 =>
          by_cases hst : t0.state = TaskState.Assigned
          · have hne : tid ≠ tid0 := by
              intro he
              subst he
              rw [h] at hft0
              obtain rfl : t = t0 := Option.some_inj.mp hft0
              exact hterm_ne_assigned hst
            rw [show applyOp (Op.complete aid res now) s =
              (CompleteTask aid res now s).2 from rfl,
              CompleteTask_eq_success ha hct hft0 hst]
            show findTask (updateTask tid0 (finishTask .Completed res now) s.tasks)
              tid = some t
            rw [findTask_updateTask_ne (finishTask_task_id .Completed res now) hne]
            exact h
          · rw [show applyOp (Op.complete aid res now) s =
              (CompleteTask aid res now s).2 from rfl,
              CompleteTask_eq_invalid ha hct hft0 hst]
            exact h
  | fail aid reason now =>
    cases ha : findAgent s.agents aid with
    | none =>
      rw [show applyOp (Op.fail aid reason now) s = (FailTask aid reason now s).2
        from rfl, FailTask_eq_notfound ha]
      exact h
    | some a =>
      cases hct : a.current_task with
      | none =>
        rw [show applyOp (Op.fail aid reason now) s = (FailTask aid reason now s).2
          from rfl, FailTask_eq_noactive ha hct]
        exact h
      | some tid0 =>
        cases hft0 : findTask s.tasks tid0 with
        | none =>
          rw [show applyOp (Op.fail aid reason now) s = (FailTask aid reason now s).2
            from rfl, FailTask_eq_task_missing ha hct hft0]
          exact h
        | some t0 =>
          by_cases hst : t0.state = TaskState.Assigned
          · have hne : tid ≠ tid0 := by
              intro he
              subst he
              rw [h] at hft0
              obtain rfl : t = t0 := Option.some_inj.mp hft0
              exact hterm_ne_assigned hst
            rw [show applyOp (Op.fail aid reason now) s =
              (FailTask aid reason now s).2 from rfl,
              FailTask_eq_success ha hct hft0 hst]
            show findTask (updateTask tid0 (finishTask .Failed reason now) s.tasks)
              tid = some t
            rw [findTask_updateTask_ne (finishTask_task_id .Failed reason now) hne]
            exact h
          · rw [show applyOp (Op.fail aid reason now) s =
              (FailTask aid reason now s).2 from rfl,
              FailTask_eq_invalid ha hct hft0 hst]
            exact h
  | heartbeat aid now =>
    cases ha : findAgent s.agents aid with
    | none =>
      rw [show applyOp (Op.heartbeat aid now) s = (Heartbeat aid now s).2 from rfl,
        Heartbeat_eq_notfound ha]
      exact h
    | some a =>
      rw [show applyOp (Op.heartbeat aid now) s = (Heartbeat aid now s).2 from rfl,
        Heartbeat_eq_ok ha]
      exact h
  | sweep aid now threshold =>
    cases ha : findAgent s.agents aid with
    | none =>
      rw [show applyOp (Op.sweep aid now threshold) s = SweepAgent aid now threshold s
        from rfl, SweepAgent_eq_notfound ha]
      exact h
    | some a =>
      by_cases hstale : threshold < now - a.last_heartbeat
      · cases hct : a.current_task with
        | none =>
          rw [show applyOp (Op.sweep aid now threshold) s =
            SweepAgent aid now threshold s from rfl,
            SweepAgent_eq_no_task ha hstale hct]
          exact h
        | some tid0 =>
          obtain ⟨ha_mem, haid⟩ := findAgent_some ha
          obtain ⟨-, hlink⟩ := hs.agent_link a ha_mem
          obtain ⟨t0, ht0_mem, htid0, hAss0, -⟩ := hlink tid0 hct
          have hft0 : findTask s.tasks tid0 = some t0 := by
            rw [← htid0]
            exact findTask_of_mem_nodup hs.tasks_nodup ht0_mem
          have hne : tid ≠ tid0 := by
            intro he
            subst he
            rw [h] at hft0
            obtain rfl : t = t0 := Option.some_inj.mp hft0
            exact hterm_ne_assigned hAss0
          rw [show applyOp (Op.sweep aid now threshold) s =
            SweepAgent aid now threshold s from rfl,
            SweepAgent_eq_requeue ha hstale hct]
          show findTask (updateTask tid0 requeueTask s.tasks) tid = some t
          rw [findTask_updateTask_ne requeueTask_task_id hne]
          exact h
      · rw [show applyOp (Op.sweep aid now threshold) s = SweepAgent aid now threshold s
          from rfl, SweepAgent_eq_fresh ha hstale]
        exact h

/-! ### Claims -/

/-- C2: capability matching is subset containment and the scheduler
respects it: `Eligible requiredCaps agentCaps` is true iff every required
capability is among the agent's capabilities (so an empty requirement is
eligible against every agent), and whenever `GetNextTask` returns a task,
that task's `required_capabilities` are a subset of the requesting
agent's capabilities. -/
theorem capability_matching :
    (∀ req caps : List String, Eligible req caps = true ↔ ∀ c ∈ req, c ∈ caps) ∧
    (∀ caps : List String, Eligible [] caps = true) ∧
    (∀ (s s' : CoordState) (aid now tid : Nat),
      GetNextTask aid now s = (some tid, s') →
      ∃ a t, findAgent s.agents aid = some a ∧ findTask s.tasks tid = some t ∧
        ∀ c ∈ t.required_capabilities, c ∈ a.capabilities) := by
  refine ⟨fun req caps => Eligible_iff, fun caps => by simp [Eligible], ?_⟩
  intro s s' aid now tid h
  obtain ⟨a, ha, hidle, hfe, -⟩ := getNextTask_some_inv h
  obtain ⟨q1, q2, hsplit, ⟨t, hft, helig⟩, -⟩ := firstEligible_eq_some hfe
  exact ⟨a, t, ha, hft, Eligible_iff.mp helig⟩

/-- C2 witness: the matcher facts at concrete capability sets and the
scheduler respecting them at a concrete scheduling step. -/
theorem capability_matching_witness :
    (Eligible ["coding"] ["coding", "testing"] = true ↔
      ∀ c ∈ ["coding"], c ∈ ["coding", "testing"]) ∧
    Eligible [] ["x"] = true ∧
    ∃ a t, findAgent scCap.agents 0 = some a ∧ findTask scCap.tasks 0 = some t ∧
      ∀ c ∈ t.required_capabilities, c ∈ a.capabilities :=
  ⟨capability_matching.1 ["coding"] ["coding", "testing"],
   capability_matching.2.1 ["x"],
   capability_matching.2.2 scCap (GetNextTask 0 5 scCap).2 0 5 0
     (Prod.ext (by decide) rfl)⟩

/-- C8: tool visibility and Forbidden enforcement: a remote context's
visible set excludes every local-only tool and retains every remote-safe
tool, a local context sees all tools, all coordination tools of the
catalogue are remote-safe, invoking a tool whose name is not in the
visible set fails with Forbidden, and the same invocation from a local
context succeeds whenever the tool exists. -/
theorem tool_visibility_enforcement :
    (∀ (tools : List ToolDescriptor) (ctx : ConnectionContext),
      ctx.connection_type = ConnectionType.remote →
      (∀ t ∈ tools, t.visibility = Visibility.localOnly →
        t ∉ (FilterTools tools ctx).1) ∧
      (∀ t ∈ tools, t.visibility = Visibility.remoteSafe →
        t ∈ (FilterTools tools ctx).1)) ∧
    (∀ (tools : List ToolDescriptor) (ctx : ConnectionContext),
      ctx.connection_type = ConnectionType.«local» →
      (FilterTools tools ctx).1 = tools) ∧
    (∀ name ∈ coordinationToolNames,
      ∃ t ∈ toolCatalogue, t.name = name ∧ t.visibility = Visibility.remoteSafe) ∧
    (∀ (tools : List ToolDescriptor) (ctx : ConnectionContext) (name : String),
      (∀ t ∈ (FilterTools tools ctx).1, t.name ≠ name) →
      invoke_tool tools ctx name = .error .Forbidden) ∧
    (∀ (tools : List ToolDescriptor) (ctx : ConnectionContext) (name : String),
      ctx.connection_type = ConnectionType.«local» → (∃ t ∈ tools, t.name = name) →
      invoke_tool tools ctx name = .ok ()) := by
  refine ⟨?_, ?_, by decide, ?_, ?_⟩
  · intro tools ctx hctx
    constructor
    · intro t ht hv hmem
      simp only [FilterTools, hctx, List.mem_filter, beq_iff_eq] at hmem
      rw [hv] at hmem
      cases hmem.2
    · intro t ht hv
      simp only [FilterTools, hctx, List.mem_filter, beq_iff_eq]
      exact ⟨ht, hv⟩
  · intro tools ctx hctx
    simp [FilterTools, hctx]
  · intro tools ctx name hnone
    simp only [invoke_tool]
    rw [if_neg]
    simp only [List.any_eq_true, beq_iff_eq]
    rintro ⟨t, ht, rfl⟩
    exact hnone t ht rfl
  · intro tools ctx name hctx hex
    obtain ⟨t, ht, hname⟩ := hex
    have hvis : (FilterTools tools ctx).1 = tools := by simp [FilterTools, hctx]
    simp only [invoke_tool, hvis]
    rw [if_pos]
    simp only [List.any_eq_true, beq_iff_eq]
    exact ⟨t, ht, hname⟩

/-- C8 witness: on the concrete catalogue, a remote context is refused
`read_file` with Forbidden while a local context succeeds, and `heartbeat`
is visible remotely. -/
theorem tool_visibility_enforcement_witness :
    invoke_tool toolCatalogue ⟨ConnectionType.remote⟩ "read_file" =
      .error .Forbidden ∧
    invoke_tool toolCatalogue ⟨ConnectionType.«local»⟩ "read_file" = .ok () ∧
    (⟨"heartbeat", Visibility.remoteSafe⟩ : ToolDescriptor) ∈
      (FilterTools toolCatalogue ⟨ConnectionType.remote⟩).1 :=
  ⟨tool_visibility_enforcement.2.2.2.1 toolCatalogue ⟨ConnectionType.remote⟩
     "read_file" (by decide),
   tool_visibility_enforcement.2.2.2.2 toolCatalogue ⟨ConnectionType.«local»⟩
     "read_file" rfl ⟨⟨"read_file", Visibility.localOnly⟩, by decide, rfl⟩,
   (tool_visibility_enforcement.1 toolCatalogue ⟨ConnectionType.remote⟩ rfl).2
     ⟨"heartbeat", Visibility.remoteSafe⟩ (by decide) rfl⟩

/-- C10: the example MCP client's `create_task` always sends the
`priority` key (whose parameter defaults to "normal"), omits the
`required_capabilities` key whenever the caller passes None or an empty
list (Python truthiness treats `[]` like `None`), and consequently can
never transmit an explicit empty `required_capabilities` list. -/
theorem client_create_task_args :
    (∀ (title description priority : String) (rc : Option (List String)),
      ("priority", ArgVal.str priority) ∈
        AgentCoordinatorMCP.create_task title description priority rc) ∧
    AgentCoordinatorMCP.create_task_default_priority = "normal" ∧
    (∀ (title description priority : String) (rc : Option (List String)),
      rc = none ∨ rc = some [] →
      ∀ v, ("required_capabilities", v) ∉
        AgentCoordinatorMCP.create_task title description priority rc) ∧
    (∀ (title description priority : String) (rc : Option (List String)),
      ("required_capabilities", ArgVal.strList []) ∉
        AgentCoordinatorMCP.create_task title description priority rc) := by
  refine ⟨?_, rfl, ?_, ?_⟩
  · intro title description priority rc
    cases rc with
    | none => simp [AgentCoordinatorMCP.create_task]
    | some caps =>
      by_cases hc : caps.isEmpty
      · simp [AgentCoordinatorMCP.create_task, hc]
      · simp [AgentCoordinatorMCP.create_task, hc]
  · rintro title description priority rc (rfl | rfl) v <;>
      simp [AgentCoordinatorMCP.create_task]
  · intro title description priority rc
    cases rc with
    | none => simp [AgentCoordinatorMCP.create_task]
    | some caps =>
      by_cases hc : caps.isEmpty
      · simp [AgentCoordinatorMCP.create_task, hc]
      · simp only [AgentCoordinatorMCP.create_task, if_neg hc, List.mem_append,
          List.mem_cons, List.not_mem_nil, or_false, Prod.mk.injEq,
          List.mem_singleton]
        intro h
        rcases h with (⟨h1, -⟩ | ⟨h1, -⟩ | ⟨h1, -⟩) | ⟨-, h2⟩
        · exact absurd h1 (by decide)
        · exact absurd h1 (by decide)
        · exact absurd h1 (by decide)
        · have hcaps : caps = [] := by
            cases h2
            rfl
          rw [hcaps] at hc
          exact hc rfl

/-- C10 witness: concrete argument dicts built by the client for an empty
and for a non-empty capability list. -/
theorem client_create_task_args_witness :
    ("priority", ArgVal.str "normal") ∈
      AgentCoordinatorMCP.create_task "t" "d" "normal" (some []) ∧
    (∀ v, ("required_capabilities", v) ∉
      AgentCoordinatorMCP.create_task "t" "d" "normal" (some [])) ∧
    ("required_capabilities", ArgVal.strList []) ∉
      AgentCoordinatorMCP.create_task "t" "d" "high" (some ["coding"]) :=
  ⟨client_create_task_args.1 "t" "d" "normal" (some []),
   client_create_task_args.2.2.1 "t" "d" "normal" (some []) (Or.inr rfl),
   client_create_task_args.2.2.2 "t" "d" "high" (some ["coding"])⟩

theorem heartbeat_frame_step (aid now : Nat) (s : CoordState) :
    (Heartbeat aid now s).2.tasks = s.tasks ∧
    (Heartbeat aid now s).2.pendingQueue = s.pendingQueue ∧
    (Heartbeat aid now s).2.agents.map Agent.status = s.agents.map Agent.status ∧
    (Heartbeat aid now s).2.agents.map Agent.current_task =
      s.agents.map Agent.current_task := by
  cases ha : findAgent s.agents aid with
  | none =>
    rw [Heartbeat_eq_notfound ha]
    exact ⟨rfl, rfl, rfl, rfl⟩
  | some a =>
    rw [Heartbeat_eq_ok ha]
    refine ⟨rfl, rfl, ?_, ?_⟩
    · show (updateAgent aid (touchAgent now) s.agents).map Agent.status =
        s.agents.map Agent.status
      unfold updateAgent
      rw [List.map_map]
      apply List.map_congr_left
      intro b _
      by_cases h : b.agent_id = aid <;> simp [h, touchAgent]
    · show (updateAgent aid (touchAgent now) s.agents).map Agent.current_task =
        s.agents.map Agent.current_task
      unfold updateAgent
      rw [List.map_map]
      apply List.map_congr_left
      intro b _
      by_cases h : b.agent_id = aid <;> simp [h, touchAgent]

/-- C9: heartbeat idempotence and frame: any number of heartbeat calls
leaves the task board, the pending queue, every agent's status and every
agent's current task unchanged; a single heartbeat on a known agent
succeeds and changes only that agent's `last_heartbeat`; a heartbeat for
an unknown agent returns NotFound and changes no state. -/
theorem heartbeat_idempotent_frame :
    (∀ (calls : List (Nat × Nat)) (s : CoordState),
      (applyHeartbeats calls s).tasks = s.tasks ∧
      (applyHeartbeats calls s).pendingQueue = s.pendingQueue ∧
      (applyHeartbeats calls s).agents.map Agent.status = s.agents.map Agent.status ∧
      (applyHeartbeats calls s).agents.map Agent.current_task =
        s.agents.map Agent.current_task) ∧
    (∀ (s : CoordState) (aid now : Nat) (a : Agent),
      findAgent s.agents aid = some a →
      (Heartbeat aid now s).1 = .ok () ∧
      ∃ a', findAgent (Heartbeat aid now s).2.agents aid = some a' ∧
        a'.status = a.status ∧ a'.current_task = a.current_task ∧
        a'.name = a.name ∧ a'.capabilities = a.capabilities ∧
        a'.completed_count = a.completed_count ∧ a'.last_heartbeat = now) ∧
    (∀ (s : CoordState) (aid now : Nat), findAgent s.agents aid = none →
      Heartbeat aid now s = (.error .NotFound, s)) := by
  refine ⟨?_, ?_, fun s aid now ha => Heartbeat_eq_notfound ha⟩
  · intro calls
    induction calls with
    | nil => exact fun s => ⟨rfl, rfl, rfl, rfl⟩
    | cons c rest ih =>
      intro s
      have hstep := heartbeat_frame_step c.1 c.2 s
      have hrest := ih (Heartbeat c.1 c.2 s).2
      have hc : applyHeartbeats (c :: rest) s =
          applyHeartbeats rest (Heartbeat c.1 c.2 s).2 := rfl
      rw [hc]
      exact ⟨hrest.1.trans hstep.1, hrest.2.1.trans hstep.2.1,
        hrest.2.2.1.trans hstep.2.2.1, hrest.2.2.2.trans hstep.2.2.2⟩
  · intro s aid now a ha
    rw [Heartbeat_eq_ok ha]
    refine ⟨rfl, touchAgent now a, ?_, rfl, rfl, rfl, rfl, rfl, rfl⟩
    show findAgent (updateAgent aid (touchAgent now) s.agents) aid =
      some (touchAgent now a)
    rw [findAgent_updateAgent_self (touchAgent_agent_id now), ha]
    rfl

/-- C9 witness: heartbeat effects on a concrete state: two repeated
heartbeats leave statuses, current tasks, tasks and queue unchanged; a
known agent's record changes only in `last_heartbeat`; an unknown agent
id yields NotFound with the state untouched. -/
theorem heartbeat_idempotent_frame_witness :
    (applyHeartbeats [(0, 50), (0, 60)] scBase).agents.map Agent.status =
      scBase.agents.map Agent.status ∧
    (∃ a', findAgent (Heartbeat 0 50 scBase).2.agents 0 = some a' ∧
      a'.status = AgentStatus.Idle ∧ a'.current_task = none ∧
      a'.name = "A" ∧ a'.capabilities = [] ∧
      a'.completed_count = 0 ∧ a'.last_heartbeat = 50) ∧
    Heartbeat 7 50 scBase = (.error .NotFound, scBase) := by
  refine ⟨(heartbeat_idempotent_frame.1 [(0, 50), (0, 60)] scBase).2.2.1, ?_,
    heartbeat_idempotent_frame.2.2 scBase 7 50 (by decide)⟩
  obtain ⟨-, a', ha', h1, h2, h3, h4, h5, h6⟩ :=
    heartbeat_idempotent_frame.2.1 scBase 0 50
      ⟨0, "A", [], AgentStatus.Idle, none, 0, 0⟩ (by decide)
  exact ⟨a', ha', h1, h2, h3, h4, h5, h6⟩

/-- C1: exactly-once assignment: from a reachable state, once
`GetNextTask` has returned a task to one agent, a subsequent
`GetNextTask` from any other agent never returns that same task (it is
Assigned in the intermediate state). -/
theorem exactly_once_assignment {s s' : CoordState} {a1 a2 n1 n2 tid : Nat}
    (hreach : Reachable s) (h1 : GetNextTask a1 n1 s = (some tid, s'))
    (hne : a2 ≠ a1) : (GetNextTask a2 n2 s').1 ≠ some tid := by
  intro h2
  have h2' : GetNextTask a2 n2 s' = (some tid, (GetNextTask a2 n2 s').2) :=
    Prod.ext h2 rfl
  have hreach' : Reachable s' := by
    have hstep := Reachable.step (Op.getNext a1 n1) hreach
    rw [show applyOp (Op.getNext a1 n1) s = (GetNextTask a1 n1 s).2 from rfl,
      h1] at hstep
    exact hstep
  have hinv' := reachable_inv hreach'
  obtain ⟨t2, hft2, hpend2, -⟩ := getNextTask_some_pending hinv' h2'
  obtain ⟨a, ha, hidle, hfe, hs'eq⟩ := getNextTask_some_inv h1
  obtain ⟨q1, q2, hsplit, ⟨t, hft, helig⟩, -⟩ := firstEligible_eq_some hfe
  have hass : findTask s'.tasks tid = some (assignTask a1 n1 t) := by
    rw [hs'eq]
    show findTask (updateTask tid (assignTask a1 n1) s.tasks) tid = _
    rw [findTask_updateTask_self (assignTask_task_id a1 n1), hft]
    rfl
  rw [hass] at hft2
  obtain rfl : assignTask a1 n1 t = t2 := Option.some_inj.mp hft2
  simp [assignTask] at hpend2

/-- C1 witness: in the two-agent demo script, after agent 0 is assigned
task 0, agent 1's `GetNextTask` does not return task 0. -/
theorem exactly_once_assignment_witness :
    (GetNextTask 1 6 (GetNextTask 0 5 scBase).2).1 ≠ some 0 :=
  exactly_once_assignment (reachable_applyOps _ Reachable.init)
    (Prod.ext (by decide) rfl) (by decide)

/-- C4: `GetNextTask` postcondition, both branches: an unknown or
non-Idle agent gets none with the whole state unchanged; an Idle agent
with no eligible pending task gets none with the whole state unchanged;
and on success the returned task is Assigned with `assigned_agent` and
`assigned_at` set, the agent is Busy with `current_task` set, and the
task has left the pending queue. -/
theorem getNextTask_postcondition {s : CoordState} (hreach : Reachable s)
    (aid now : Nat) :
    ((findAgent s.agents aid = none ∨
      (∃ a, findAgent s.agents aid = some a ∧ a.status ≠ AgentStatus.Idle)) →
      GetNextTask aid now s = (none, s)) ∧
    (∀ a, findAgent s.agents aid = some a → a.status = AgentStatus.Idle →
      (∀ u ∈ s.tasks, u.state = TaskState.Pending →
        Eligible u.required_capabilities a.capabilities = false) →
      GetNextTask aid now s = (none, s)) ∧
    (∀ tid s', GetNextTask aid now s = (some tid, s') →
      (∃ t, findTask s'.tasks tid = some t ∧ t.state = TaskState.Assigned ∧
        t.assigned_agent = some aid ∧ t.assigned_at = some now) ∧
      (∃ a, findAgent s'.agents aid = some a ∧ a.status = AgentStatus.Busy ∧
        a.current_task = some tid) ∧
      tid ∉ s'.pendingQueue) := by
  have hinv := reachable_inv hreach
  refine ⟨?_, ?_, ?_⟩
  · rintro (ha | ⟨a, ha, hni⟩)
    · exact GetNextTask_eq_none_agent ha
    · exact GetNextTask_eq_not_idle ha hni
  · intro a ha hidle hno
    have hfe : firstEligible s.tasks a.capabilities s.pendingQueue = none := by
      rw [firstEligible_eq_none]
      intro x hx u hu
      obtain ⟨u0, hfu0, hp0⟩ := hinv.queue_find hx
      rw [hfu0] at hu
      obtain rfl : u0 = u := Option.some_inj.mp hu
      exact hno u0 (findTask_some hfu0).1 hp0
    exact GetNextTask_eq_no_task ha hidle hfe
  · intro tid s' h
    obtain ⟨a, ha, hidle, hfe, hs'eq⟩ := getNextTask_some_inv h
    obtain ⟨q1, q2, hsplit, ⟨t, hft, helig⟩, -⟩ := firstEligible_eq_some hfe
    refine ⟨⟨assignTask aid now t, ?_, rfl, rfl, rfl⟩,
      ⟨busyAgent tid a, ?_, rfl, rfl⟩, ?_⟩
    · rw [hs'eq]
      show findTask (updateTask tid (assignTask aid now) s.tasks) tid = _
      rw [findTask_updateTask_self (assignTask_task_id aid now), hft]
      rfl
    · rw [hs'eq]
      show findAgent (updateAgent aid (busyAgent tid) s.agents) aid = _
      rw [findAgent_updateAgent_self (busyAgent_agent_id tid), ha]
      rfl
    · rw [hs'eq]
      show tid ∉ s.pendingQueue.filter (fun x => x ≠ tid)
      simp [List.mem_filter]

/-- C4 witness: an unknown agent id gets none with the state unchanged,
and after a successful call on the demo script the task has left the
queue. -/
theorem getNextTask_postcondition_witness :
    GetNextTask 5 9 scBase = (none, scBase) ∧
    0 ∉ (GetNextTask 0 5 scBase).2.pendingQueue :=
  ⟨(getNextTask_postcondition (reachable_applyOps _ Reachable.init) 5 9).1
     (Or.inl (by decide)),
   ((getNextTask_postcondition (reachable_applyOps _ Reachable.init) 0 5).2.2 0
     (GetNextTask 0 5 scBase).2 (Prod.ext (by decide) rfl)).2.2⟩

/-- C5: `CompleteTask` and `FailTask`: from a reachable state, for an
agent holding a task the operation returns that task id; the task becomes
Completed (resp. Failed) with `result` and `completed_at` recorded, the
agent becomes Idle with `current_task` cleared and its completed counter
incremented; a failed task does not re-enter the pending queue; and for
an agent holding no task both operations fail with NoActiveTask and
change no state. -/
theorem complete_fail_task {s : CoordState} (hreach : Reachable s)
    (aid : Nat) (res reason : String) (now : Nat) :
    (∀ a tid, findAgent s.agents aid = some a → a.current_task = some tid →
      (∃ s', CompleteTask aid res now s = (.ok tid, s') ∧
        (∃ t, findTask s'.tasks tid = some t ∧ t.state = TaskState.Completed ∧
          t.result = some res ∧ t.completed_at = some now) ∧
        (∃ a', findAgent s'.agents aid = some a' ∧ a'.status = AgentStatus.Idle ∧
          a'.current_task = none ∧ a'.completed_count = a.completed_count + 1)) ∧
      (∃ s', FailTask aid reason now s = (.ok tid, s') ∧
        (∃ t, findTask s'.tasks tid = some t ∧ t.state = TaskState.Failed ∧
          t.result = some reason ∧ t.completed_at = some now) ∧
        (∃ a', findAgent s'.agents aid = some a' ∧ a'.status = AgentStatus.Idle ∧
          a'.current_task = none ∧ a'.completed_count = a.completed_count + 1) ∧
        tid ∉ s'.pendingQueue)) ∧
    (∀ a, findAgent s.agents aid = some a → a.current_task = none →
      CompleteTask aid res now s = (.error .NoActiveTask, s) ∧
      FailTask aid reason now s = (.error .NoActiveTask, s)) := by
  have hinv := reachable_inv hreach
  refine ⟨?_, fun a ha hct =>
    ⟨CompleteTask_eq_noactive ha hct, FailTask_eq_noactive ha hct⟩⟩
  intro a tid ha hct
  obtain ⟨ha_mem, haid⟩ := findAgent_some ha
  obtain ⟨-, hlink⟩ := hinv.agent_link a ha_mem
  obtain ⟨t, ht_mem, htid, hAss, -⟩ := hlink tid hct
  have hft : findTask s.tasks tid = some t := by
    rw [← htid]
    exact findTask_of_mem_nodup hinv.tasks_nodup ht_mem
  have hnotq : tid ∉ s.pendingQueue := by
    rw [← htid]
    exact hinv.not_pending_not_mem ht_mem (by rw [hAss]; intro h; cases h)
  constructor
  · refine ⟨_, CompleteTask_eq_success ha hct hft hAss, ?_, ?_⟩
    · refine ⟨finishTask .Completed res now t, ?_, rfl, rfl, rfl⟩
      show findTask (updateTask tid (finishTask .Completed res now) s.tasks) tid = _
      rw [findTask_updateTask_self (finishTask_task_id .Completed res now), hft]
      rfl
    · refine ⟨idleAgent now a, ?_, rfl, rfl, rfl⟩
      show findAgent (updateAgent aid (idleAgent now) s.agents) aid = _
      rw [findAgent_updateAgent_self (idleAgent_agent_id now), ha]
      rfl
  · refine ⟨_, FailTask_eq_success ha hct hft hAss, ?_, ?_, ?_⟩
    · refine ⟨finishTask .Failed reason now t, ?_, rfl, rfl, rfl⟩
      show findTask (updateTask tid (finishTask .Failed reason now) s.tasks) tid = _
      rw [findTask_updateTask_self (finishTask_task_id .Failed reason now), hft]
      rfl
    · refine ⟨idleAgent now a, ?_, rfl, rfl, rfl⟩
      show findAgent (updateAgent aid (idleAgent now) s.agents) aid = _
      rw [findAgent_updateAgent_self (idleAgent_agent_id now), ha]
      rfl
    · exact hnotq

/-- C5 witness: completing on the assigned demo state yields the task id
with the expected post-state, and an idle agent with no task gets
NoActiveTask. -/
theorem complete_fail_task_witness :
    (∃ s', CompleteTask 0 "done" 7 scAssigned = (.ok 0, s') ∧
      (∃ t, findTask s'.tasks 0 = some t ∧ t.state = TaskState.Completed ∧
        t.result = some "done" ∧ t.completed_at = some 7) ∧
      (∃ a', findAgent s'.agents 0 = some a' ∧ a'.status = AgentStatus.Idle ∧
        a'.current_task = none ∧ a'.completed_count = 0 + 1)) ∧
    CompleteTask 1 "x" 7 scAssigned = (.error .NoActiveTask, scAssigned) := by
  have h := complete_fail_task
    (reachable_applyOps _ Reachable.init : Reachable scAssigned) 0 "done" "why" 7
  refine ⟨((h.1 ⟨0, "A", ["coding"], AgentStatus.Busy, some 0, 0, 0⟩ 0
    (by decide) (by decide)).1), ?_⟩
  exact ((complete_fail_task
    (reachable_applyOps _ Reachable.init : Reachable scAssigned) 1 "x" "why" 7).2
    ⟨1, "B", ["coding"], AgentStatus.Idle, none, 1, 0⟩ (by decide) (by decide)).1

/-- C3: scheduling order: from a reachable state, for an Idle agent with
at least one eligible pending task, `GetNextTask` returns a pending
eligible task that comes strictly before every other eligible pending
task in the order priority urgent > high > normal > low with FIFO
(creation-order) tie-break; in particular, with tasks created as
[low, urgent, normal] the first call returns the urgent task, and with
two equal-priority tasks created in order T1, T2 it returns T1. -/
theorem scheduling_order :
    (∀ (s : CoordState) (aid now : Nat) (a : Agent), Reachable s →
      findAgent s.agents aid = some a → a.status = AgentStatus.Idle →
      (∃ u ∈ s.tasks, u.state = TaskState.Pending ∧
        Eligible u.required_capabilities a.capabilities = true) →
      ∃ tid t s', GetNextTask aid now s = (some tid, s') ∧
        findTask s.tasks tid = some t ∧ t.state = TaskState.Pending ∧
        Eligible t.required_capabilities a.capabilities = true ∧
        ∀ u ∈ s.tasks, u.state = TaskState.Pending →
          Eligible u.required_capabilities a.capabilities = true →
          u.task_id ≠ tid → keyLt t u = true) ∧
    (GetNextTask 0 5 scPriority).1 = some 1 ∧
    (GetNextTask 0 5 scFifo).1 = some 0 := by
  refine ⟨?_, by decide, by decide⟩
  intro s aid now a hreach ha hidle hex
  have hinv := reachable_inv hreach
  cases hfe : firstEligible s.tasks a.capabilities s.pendingQueue with
  | none =>
    exfalso
    obtain ⟨u, hu, hp, helig⟩ := hex
    have hq : u.task_id ∈ s.pendingQueue := (hinv.queue_mem _).mpr ⟨u, hu, rfl, hp⟩
    have hco := firstEligible_eq_none.mp hfe u.task_id hq u
      (findTask_of_mem_nodup hinv.tasks_nodup hu)
    rw [helig] at hco
    simp at hco
  | some tid =>
    have hgns := @GetNextTask_eq_success s aid now tid a ha hidle hfe
    obtain ⟨q1, q2, hsplit, ⟨t, hft, helig⟩, hfirst⟩ := firstEligible_eq_some hfe
    have hq_mem : tid ∈ s.pendingQueue := by
      rw [hsplit]
      exact List.mem_append_right _ (List.mem_cons_self _ _)
    obtain ⟨t', hft', hpend⟩ := hinv.queue_find hq_mem
    rw [hft] at hft'
    obtain rfl : t = t' := Option.some_inj.mp hft'
    refine ⟨tid, t, _, hgns, hft, hpend, helig, ?_⟩
    intro u hu hup huelig hune
    have huq : u.task_id ∈ s.pendingQueue := (hinv.queue_mem _).mpr ⟨u, hu, rfl, hup⟩
    have hfu : findTask s.tasks u.task_id = some u :=
      findTask_of_mem_nodup hinv.tasks_nodup hu
    rw [hsplit] at huq
    rcases List.mem_append.mp huq with h1 | h1
    · have hco := hfirst u.task_id h1 u hfu
      rw [huelig] at hco
      simp at hco
    · rcases List.mem_cons.mp h1 with h2 | h2
      · exact absurd h2 hune
      · have hpw := hinv.queue_sorted
        rw [hsplit] at hpw
        obtain ⟨-, hpw2, -⟩ := List.pairwise_append.mp hpw
        have hqb : QBefore s.tasks tid u.task_id :=
          (List.pairwise_cons.mp hpw2).1 u.task_id h2
        obtain ⟨tx, ty, hx, hy, hk⟩ := queueBefore_iff.mp hqb
        rw [hft] at hx
        rw [hfu] at hy
        obtain rfl : tx = t := (Option.some_inj.mp hx).symm
        obtain rfl : ty = u := (Option.some_inj.mp hy).symm
        exact hk

/-- C3 witness: on the [low, urgent, normal] script the scheduler hands
out a pending eligible task that precedes all other eligible pending
tasks in the priority/FIFO order. -/
theorem scheduling_order_witness :
    ∃ tid t s', GetNextTask 0 9 scPriority = (some tid, s') ∧
      findTask scPriority.tasks tid = some t ∧ t.state = TaskState.Pending ∧
      Eligible t.required_capabilities [] = true ∧
      ∀ u ∈ scPriority.tasks, u.state = TaskState.Pending →
        Eligible u.required_capabilities [] = true →
        u.task_id ≠ tid → keyLt t u = true :=
  scheduling_order.1 scPriority 0 9 ⟨0, "A", [], AgentStatus.Idle, none, 0, 0⟩
    (reachable_applyOps _ Reachable.init) (by decide) rfl
    ⟨⟨1, "T2", "", .urgent, [], .Pending, none, none, 2, none, none⟩,
      by decide, rfl, rfl⟩

/-- C6: task state invariant and legal transitions: in every reachable
state `assigned_agent` is set iff the task is Assigned and `result` is
set iff it is Completed or Failed; every operation leaves a task's state
unchanged or moves it along Pending -> Assigned -> {Completed, Failed},
with Assigned -> Pending possible only on the sweep (liveness-requeue)
operation; a Completed or Failed task is never mutated again; and
completing or failing against a held task that is not Assigned signals
InvalidTransition with no state change. -/
theorem task_state_machine :
    (∀ s : CoordState, Reachable s → ∀ t ∈ s.tasks,
      (t.assigned_agent.isSome ↔ t.state = TaskState.Assigned) ∧
      (t.result.isSome ↔
        (t.state = TaskState.Completed ∨ t.state = TaskState.Failed))) ∧
    (∀ (op : Op) (s : CoordState), Reachable s → ∀ (tid : Nat) (t t' : Task),
      findTask s.tasks tid = some t →
      findTask (applyOp op s).tasks tid = some t' →
      TaskTransOK t.state t'.state op) ∧
    (∀ (op : Op) (s : CoordState), Reachable s → ∀ (tid : Nat) (t : Task),
      findTask s.tasks tid = some t →
      (t.state = TaskState.Completed ∨ t.state = TaskState.Failed) →
      findTask (applyOp op s).tasks tid = some t) ∧
    (∀ (s : CoordState) (aid : Nat) (res reason : String) (now : Nat) (a : Agent)
      (tid : Nat) (t : Task),
      findAgent s.agents aid = some a → a.current_task = some tid →
      findTask s.tasks tid = some t → ¬t.state = TaskState.Assigned →
      CompleteTask aid res now s = (.error .InvalidTransition, s) ∧
      FailTask aid reason now s = (.error .InvalidTransition, s)) := by
  refine ⟨?_, ?_, ?_, ?_⟩
  · intro s hreach t ht
    exact (reachable_inv hreach).task_inv t ht
  · intro op s hreach tid t t' h h'
    exact step_task_trans op (reachable_inv hreach) h h'
  · intro op s hreach tid t h hterm
    exact step_terminal op (reachable_inv hreach) h hterm
  · intro s aid res reason now a tid t ha hct hft hst
    exact ⟨CompleteTask_eq_invalid ha hct hft hst,
      FailTask_eq_invalid ha hct hft hst⟩

/-- C6 witness: a concrete Pending -> Assigned transition is legal, and
the artificial state holding a Completed current task yields
InvalidTransition. -/
theorem task_state_machine_witness :
    TaskTransOK TaskState.Pending TaskState.Assigned (Op.getNext 0 5) ∧
    CompleteTask 0 "r" 9 scInvalid = (.error .InvalidTransition, scInvalid) := by
  constructor
  · have h := task_state_machine.2.1 (Op.getNext 0 5) scBase
      (reachable_applyOps _ Reachable.init) 0
      ⟨0, "T", "demo", .normal, [], .Pending, none, none, 2, none, none⟩
      (assignTask 0 5
        ⟨0, "T", "demo", .normal, [], .Pending, none, none, 2, none, none⟩)
      (by decide) (by decide)
    exact h
  · exact (task_state_machine.2.2.2 scInvalid 0 "r" "x" 9
      ⟨0, "A", [], .Busy, some 0, 0, 0⟩ 0
      ⟨0, "T", "", .normal, [], .Completed, none, some "r", 0, none, some 1⟩
      (by decide) (by decide) (by decide) (by decide)).1

/-- C7: liveness requeue: from a reachable state, sweeping a stale agent
that holds a task transitions that task back to Pending keeping its
original id, priority and creation time, re-enters it into the pending
queue (which remains sorted in the priority/FIFO order), clears the
agent's `current_task` and marks it Offline; afterwards any Idle agent
whose capabilities make the requeued task eligible receives a task from
`GetNextTask`; and no operation other than the sweep ever moves a task
from Assigned back to Pending. -/
theorem liveness_requeue {s : CoordState} (hreach : Reachable s)
    (aid now threshold tid : Nat) (a : Agent)
    (ha : findAgent s.agents aid = some a)
    (hstale : threshold < now - a.last_heartbeat)
    (hct : a.current_task = some tid) :
    (∃ t t0, findTask (SweepAgent aid now threshold s).tasks tid = some t ∧
      t.state = TaskState.Pending ∧
      findTask s.tasks tid = some t0 ∧ t0.state = TaskState.Assigned ∧
      t.priority = t0.priority ∧ t.created_at = t0.created_at ∧
      t.task_id = t0.task_id ∧
      tid ∈ (SweepAgent aid now threshold s).pendingQueue ∧
      (SweepAgent aid now threshold s).pendingQueue.Pairwise
        (QBefore (SweepAgent aid now threshold s).tasks) ∧
      (∀ (bid n2 : Nat) (b : Agent),
        findAgent (SweepAgent aid now threshold s).agents bid = some b →
        b.status = AgentStatus.Idle →
        Eligible t.required_capabilities b.capabilities = true →
        ∃ tid2 s'', GetNextTask bid n2 (SweepAgent aid now threshold s) =
          (some tid2, s''))) ∧
    (∃ a', findAgent (SweepAgent aid now threshold s).agents aid = some a' ∧
      a'.current_task = none ∧ a'.status = AgentStatus.Offline) ∧
    (∀ (op : Op), op.isSweep = false → ∀ (s2 : CoordState), Reachable s2 →
      ∀ (tid2 : Nat) (u u' : Task), findTask s2.tasks tid2 = some u →
      findTask (applyOp op s2).tasks tid2 = some u' →
      u.state = TaskState.Assigned → u'.state ≠ TaskState.Pending) := by
  have hinv := reachable_inv hreach
  obtain ⟨ha_mem, haid⟩ := findAgent_some ha
  obtain ⟨-, hlink⟩ := hinv.agent_link a ha_mem
  obtain ⟨t0, ht0_mem, htid0, hAss0, -⟩ := hlink tid hct
  have hft0 : findTask s.tasks tid = some t0 := by
    rw [← htid0]
    exact findTask_of_mem_nodup hinv.tasks_nodup ht0_mem
  have hsweep := SweepAgent_eq_requeue ha hstale hct
  have hreach' : Reachable (SweepAgent aid now threshold s) :=
    Reachable.step (Op.sweep aid now threshold) hreach
  have hinv' := reachable_inv hreach'
  have hft' : findTask (SweepAgent aid now threshold s).tasks tid =
      some (requeueTask t0) := by
    rw [hsweep]
    show findTask (updateTask tid requeueTask s.tasks) tid = _
    rw [findTask_updateTask_self requeueTask_task_id, hft0]
    rfl
  have hq : tid ∈ (SweepAgent aid now threshold s).pendingQueue := by
    rw [hsweep]
    show tid ∈ insertQueue (updateTask tid requeueTask s.tasks) tid s.pendingQueue
    rw [insertQueue]
    exact mem_insertOrd.mpr (Or.inl rfl)
  refine ⟨⟨requeueTask t0, t0, hft', rfl, hft0, hAss0, rfl, rfl, rfl, hq,
    hinv'.queue_sorted, ?_⟩, ?_, ?_⟩
  · intro bid n2 b hb hbidle helig
    cases hfe : firstEligible (SweepAgent aid now threshold s).tasks b.capabilities
      (SweepAgent aid now threshold s).pendingQueue with
    | none =>
      exfalso
      have hco := firstEligible_eq_none.mp hfe tid hq (requeueTask t0) hft'
      rw [helig] at hco
      simp at hco
    | some tid2 =>
      exact ⟨tid2, _, GetNextTask_eq_success hb hbidle hfe⟩
  · refine ⟨offlineClearAgent a, ?_, rfl, rfl⟩
    rw [hsweep]
    show findAgent (updateAgent aid offlineClearAgent s.agents) aid = _
    rw [findAgent_updateAgent_self offlineClearAgent_agent_id, ha]
    rfl
  · intro op hop s2 hreach2 tid2 u u' hu hu' hAssu
    have htr := step_task_trans op (reachable_inv hreach2) hu hu'
    rcases htr with he | ⟨hp, -⟩ | ⟨-, hcf⟩ | ⟨-, -, hsw⟩
    · rw [← he, hAssu]
      intro hc
      cases hc
    · rw [hAssu] at hp
      cases hp
    · rcases hcf with h1 | h1 <;> rw [h1] <;> intro hc <;> cases hc
    · rw [hop] at hsw
      cases hsw

/-- C7 witness: sweeping the stale assigned agent of the demo script puts
task 0 back into the pending queue and clears the agent, and the other
agent then receives a task. -/
theorem liveness_requeue_witness :
    0 ∈ (SweepAgent 0 100 10 scAssigned).pendingQueue ∧
    (∃ a', findAgent (SweepAgent 0 100 10 scAssigned).agents 0 = some a' ∧
      a'.current_task = none ∧ a'.status = AgentStatus.Offline) ∧
    (∃ tid2 s'', GetNextTask 1 101 (SweepAgent 0 100 10 scAssigned) =
      (some tid2, s'')) := by
  have h := liveness_requeue
    (reachable_applyOps _ Reachable.init : Reachable scAssigned)
    0 100 10 0 ⟨0, "A", ["coding"], AgentStatus.Busy, some 0, 0, 0⟩
    (by decide) (by decide) (by decide)
  obtain ⟨⟨t, t0, hft, -, -, -, -, -, -, hqmem, -, hassignable⟩, ha', -⟩ := h
  have hconc : findTask (SweepAgent 0 100 10 scAssigned).tasks 0 =
      some ⟨0, "T", "demo", .high, ["coding"], .Pending, none, none, 2, none,
        none⟩ := by decide
  have hft2 : findTask (SweepAgent 0 100 10 scAssigned).tasks 0 = some t := hft
  rw [hconc] at hft2
  obtain rfl : t = ⟨0, "T", "demo", .high, ["coding"], .Pending, none, none, 2,
      none, none⟩ := (Option.some_inj.mp hft2).symm
  exact ⟨hqmem, ha',
    hassignable 1 101 ⟨1, "B", ["coding"], AgentStatus.Idle, none, 1, 0⟩
      (by decide) rfl (by decide)⟩

end AgentCoordinator
